import Mathlib

/-!
# Deposit services of the exchange client (`v2/deposit_service.go`)

A shallow embedding of `ListDepositsService` and `GetDepositsAddressService`:
the fluent setters, the request each `Do` builds and hands to `callAPI`, and
the decoding of the returned body with `json.Unmarshal`.

* Go byte slices and the strings decoded from them are lists of bytes
  (`List Nat`, every element below 256); the strings a caller passes to a
  setter are carried through unchanged and are Lean strings.
* A nil pointer or nil slice is `none`.
* A method with a pointer receiver is a function of the receiver that also
  returns the receiver as the call leaves it (`Outcome.builder` for `Do`, the
  new builder for a setter); the client a builder points to is passed to `Do`
  as a separate argument and returned as the call leaves it.
* `json.Unmarshal` belongs to the Go standard library; it is embedded following
  its documented contract (package `encoding/json`): the scanner grammar of
  RFC 8259, key matching that prefers an exact match and accepts a
  case-insensitive one, `null` leaving non-pointer fields untouched, the first
  type error being reported after the rest of the value has been decoded.
-/

namespace Binance

/-! ## Bytes and UTF-8 -/

/-- Bytes of an ASCII text (one byte per character). -/
def bytesOf (s : String) : List Nat := s.toList.map Char.toNat

/-- The encoding of U+FFFD, which Go substitutes for malformed input. -/
def replacementBytes : List Nat := [0xEF, 0xBF, 0xBD]

/-- UTF-8 encoding of a code point (`utf8.AppendRune`): surrogates and values
above U+10FFFF are encoded as U+FFFD. -/
def encodeRune (r : Nat) : List Nat :=
  if r < 0x80 then [r]
  else if r < 0x800 then [0xC0 + r / 64, 0x80 + r % 64]
  else if 0xD800 ≤ r ∧ r < 0xE000 then replacementBytes
  else if r < 0x10000 then [0xE0 + r / 4096, 0x80 + r / 64 % 64, 0x80 + r % 64]
  else if r < 0x110000 then
    [0xF0 + r / 262144, 0x80 + r / 4096 % 64, 0x80 + r / 64 % 64, 0x80 + r % 64]
  else replacementBytes

/-- A continuation byte `0x80..0xBF`. -/
def isCont (b : Nat) : Bool := 0x80 ≤ b && b ≤ 0xBF

/-- Length of the well-formed multi-byte UTF-8 sequence at the head of the
input, or `0` when the head is not the start of one (`utf8.DecodeRune`
returning `RuneError` with width 1). The second byte is checked against the
accept range of the first, as in Go's `acceptRanges` table. -/
def utf8SeqLen (bs : List Nat) : Nat :=
  match bs with
  | b0 :: b1 :: rest =>
    if 0xC2 ≤ b0 ∧ b0 ≤ 0xDF then (if isCont b1 then 2 else 0)
    else if 0xE0 ≤ b0 ∧ b0 ≤ 0xEF then
      let lo := if b0 = 0xE0 then 0xA0 else 0x80
      let hi := if b0 = 0xED then 0x9F else 0xBF
      if lo ≤ b1 ∧ b1 ≤ hi then
        match rest with
        | b2 :: _ => if isCont b2 then 3 else 0
        | [] => 0
      else 0
    else if 0xF0 ≤ b0 ∧ b0 ≤ 0xF4 then
      let lo := if b0 = 0xF0 then 0x90 else 0x80
      let hi := if b0 = 0xF4 then 0x8F else 0xBF
      if lo ≤ b1 ∧ b1 ≤ hi then
        match rest with
        | b2 :: b3 :: _ => if isCont b2 && isCont b3 then 4 else 0
        | _ => 0
      else 0
    else 0
  | _ => 0

/-! ## JSON values -/

/-- A JSON number as written: sign, the digits of the integer and fraction
parts read as one natural number, the number of fraction digits, the exponent
(`0` when absent), and whether the literal is a plain integer (no fraction and
no exponent part). It denotes `± digits * 10 ^ (exp - scale)`. -/
structure NumLit where
  neg : Bool
  digits : Nat
  scale : Nat
  exp : Int
  integral : Bool
  deriving DecidableEq, Repr

/-- A parsed JSON value. String contents and object keys are unquoted bytes;
object members keep their order and their duplicates. -/
inductive JSON where
  | null
  | bool (b : Bool)
  | num (n : NumLit)
  | str (s : List Nat)
  | arr (xs : List JSON)
  | obj (ms : List (List Nat × JSON))

/-- Nesting limit of Go's scanner (`maxNestingDepth`). -/
def maxNestingDepth : Nat := 10000

/-- JSON insignificant whitespace: space, tab, carriage return, line feed. -/
def isSpace (c : Nat) : Bool := c = 0x20 || c = 0x09 || c = 0x0D || c = 0x0A

/-- Decimal digit test. -/
def isDigit (c : Nat) : Bool := 0x30 ≤ c && c ≤ 0x39

/-- Drops leading whitespace. -/
def skipSpace : List Nat → List Nat
  | [] => []
  | c :: rest => if isSpace c then skipSpace rest else c :: rest

/-- Value of a hexadecimal digit. -/
def hexVal (c : Nat) : Option Nat :=
  if 0x30 ≤ c ∧ c ≤ 0x39 then some (c - 0x30)
  else if 0x61 ≤ c ∧ c ≤ 0x66 then some (c - 0x61 + 10)
  else if 0x41 ≤ c ∧ c ≤ 0x46 then some (c - 0x41 + 10)
  else none

/-- Four hexadecimal digits at the head of the input (the payload of `\u`). -/
def hex4 (bs : List Nat) : Option (Nat × List Nat) :=
  match bs with
  | a :: b :: c :: d :: rest =>
    match hexVal a, hexVal b, hexVal c, hexVal d with
    | some x, some y, some z, some w => some (x * 4096 + y * 256 + z * 16 + w, rest)
    | _, _, _, _ => none
  | _ => none

/-- A `\uXXXX` escape at the head of the input (`getu4`). -/
def getu4 (bs : List Nat) : Option (Nat × List Nat) :=
  match bs with
  | 0x5C :: 0x75 :: rest => hex4 rest
  | _ => none

/-- Reads the rest of a string literal after its opening quote and returns the
unquoted bytes and the input after the closing quote. Control characters and
unknown escapes are rejected (scanner); a surrogate pair of `\u` escapes is
combined, a lone surrogate and every malformed UTF-8 byte become U+FFFD
(`unquoteBytes`). The first argument bounds the number of steps. -/
def parseStringBody : Nat → List Nat → List Nat → Option (List Nat × List Nat)
  | 0, _, _ => none
  | _ + 1, _, [] => none
  | fuel + 1, acc, c :: rest =>
    if c = 0x22 then some (acc, rest)
    else if c < 0x20 then none
    else if c = 0x5C then
      match rest with
      | [] => none
      | e :: rest2 =>
        if e = 0x22 ∨ e = 0x5C ∨ e = 0x2F then parseStringBody fuel (acc ++ [e]) rest2
        else if e = 0x62 then parseStringBody fuel (acc ++ [0x08]) rest2
        else if e = 0x66 then parseStringBody fuel (acc ++ [0x0C]) rest2
        else if e = 0x6E then parseStringBody fuel (acc ++ [0x0A]) rest2
        else if e = 0x72 then parseStringBody fuel (acc ++ [0x0D]) rest2
        else if e = 0x74 then parseStringBody fuel (acc ++ [0x09]) rest2
        else if e = 0x75 then
          match hex4 rest2 with
          | none => none
          | some (r1, rest3) =>
            if 0xD800 ≤ r1 ∧ r1 < 0xE000 then
              match getu4 rest3 with
              | some (r2, rest4) =>
                if r1 < 0xDC00 ∧ 0xDC00 ≤ r2 ∧ r2 < 0xE000 then
                  parseStringBody fuel
                    (acc ++ encodeRune ((r1 - 0xD800) * 1024 + (r2 - 0xDC00) + 0x10000)) rest4
                else parseStringBody fuel (acc ++ replacementBytes) rest3
              | none => parseStringBody fuel (acc ++ replacementBytes) rest3
            else parseStringBody fuel (acc ++ encodeRune r1) rest3
        else none
    else if c < 0x80 then parseStringBody fuel (acc ++ [c]) rest
    else
      match utf8SeqLen (c :: rest) with
      | 0 => parseStringBody fuel (acc ++ replacementBytes) rest
      | n => parseStringBody fuel (acc ++ (c :: rest).take n) ((c :: rest).drop n)

/-- Reads a maximal run of decimal digits: their value, their count, the rest. -/
def readDigits : List Nat → Nat → Nat → Nat × Nat × List Nat
  | [], v, n => (v, n, [])
  | c :: rest, v, n =>
    if isDigit c then readDigits rest (v * 10 + (c - 0x30)) (n + 1) else (v, n, c :: rest)

/-- The optional fraction of a number literal, after the integer part of value
`iv`: a dot must be followed by at least one digit. Returns the digits read so
far as one number, the number of fraction digits, whether there was no
fraction, and the rest of the input. -/
def parseFraction (iv : Nat) (inp : List Nat) : Option (Nat × Nat × Bool × List Nat) :=
  match inp with
  | 0x2E :: r =>
    if (readDigits r iv 0).2.1 = 0 then none
    else some ((readDigits r iv 0).1, (readDigits r iv 0).2.1, false, (readDigits r iv 0).2.2)
  | _ => some (iv, 0, true, inp)

/-- The optional exponent of a number literal: `e` or `E`, an optional sign and
at least one digit. Returns the exponent when there is one, and the rest of the
input. -/
def parseExponent (inp : List Nat) : Option (Option Int × List Nat) :=
  match inp with
  | [] => some (none, [])
  | e :: r =>
    if e = 0x65 ∨ e = 0x45 then
      match r with
      | 0x2B :: r2 =>
        if (readDigits r2 0 0).2.1 = 0 then none
        else some (some ((readDigits r2 0 0).1 : Int), (readDigits r2 0 0).2.2)
      | 0x2D :: r2 =>
        if (readDigits r2 0 0).2.1 = 0 then none
        else some (some (-((readDigits r2 0 0).1 : Int)), (readDigits r2 0 0).2.2)
      | _ =>
        if (readDigits r 0 0).2.1 = 0 then none
        else some (some ((readDigits r 0 0).1 : Int), (readDigits r 0 0).2.2)
    else some (none, e :: r)

/-- Reads a number literal (after an optional minus sign has been removed):
`0` or a digit run without leading zero, an optional fraction with at least one
digit, an optional exponent with at least one digit. -/
def parseNumberBody (neg : Bool) (inp : List Nat) : Option (NumLit × List Nat) :=
  match inp with
  | [] => none
  | c :: rest =>
    if !isDigit c then none
    else
      match parseFraction (if c = 0x30 then 0 else (readDigits (c :: rest) 0 0).1)
          (if c = 0x30 then rest else (readDigits (c :: rest) 0 0).2.2) with
      | none => none
      | some (dv, sc, plain, r) =>
        match parseExponent r with
        | none => none
        | some (none, r2) => some (⟨neg, dv, sc, 0, plain⟩, r2)
        | some (some ev, r2) => some (⟨neg, dv, sc, ev, false⟩, r2)

/-- Skips whitespace and then the one given byte; `none` when the next
significant byte is another one. -/
def closing (b : Nat) (inp : List Nat) : Option (List Nat) :=
  match skipSpace inp with
  | [] => none
  | c :: rest => if c = b then some rest else none

/-- Strips a fixed byte sequence from the head of the input. -/
def expectBytes : List Nat → List Nat → Option (List Nat)
  | [], inp => some inp
  | _ :: _, [] => none
  | p :: ps, c :: rest => if p = c then expectBytes ps rest else none

mutual
/-- Parses one JSON value at the head of the input (leading whitespace
allowed); `depth` is the number of enclosing arrays and objects. -/
def parseValue : Nat → Nat → List Nat → Option (JSON × List Nat)
  | 0, _, _ => none
  | fuel + 1, depth, inp =>
    match skipSpace inp with
    | [] => none
    | c :: rest =>
      if c = 0x7B then
        if depth + 1 > maxNestingDepth then none
        else
          match closing 0x7D rest with
          | some rest2 => some (JSON.obj [], rest2)
          | none =>
            match parseMembers fuel (depth + 1) rest with
            | some (ms, rest2) => some (JSON.obj ms, rest2)
            | none => none
      else if c = 0x5B then
        if depth + 1 > maxNestingDepth then none
        else
          match closing 0x5D rest with
          | some rest2 => some (JSON.arr [], rest2)
          | none =>
            match parseElements fuel (depth + 1) rest with
            | some (xs, rest2) => some (JSON.arr xs, rest2)
            | none => none
      else if c = 0x22 then
        match parseStringBody (rest.length + 1) [] rest with
        | some (s, rest2) => some (JSON.str s, rest2)
        | none => none
      else if c = 0x74 then
        match expectBytes [0x72, 0x75, 0x65] rest with
        | some rest2 => some (JSON.bool true, rest2)
        | none => none
      else if c = 0x66 then
        match expectBytes [0x61, 0x6C, 0x73, 0x65] rest with
        | some rest2 => some (JSON.bool false, rest2)
        | none => none
      else if c = 0x6E then
        match expectBytes [0x75, 0x6C, 0x6C] rest with
        | some rest2 => some (JSON.null, rest2)
        | none => none
      else if c = 0x2D then
        match parseNumberBody true rest with
        | some (n, rest2) => some (JSON.num n, rest2)
        | none => none
      else
        match parseNumberBody false (c :: rest) with
        | some (n, rest2) => some (JSON.num n, rest2)
        | none => none
/-- Parses the members of a non-empty object up to and including the closing
brace: `string : value` separated by commas. -/
def parseMembers : Nat → Nat → List Nat → Option (List (List Nat × JSON) × List Nat)
  | 0, _, _ => none
  | fuel + 1, depth, inp =>
    match closing 0x22 inp with
    | none => none
    | some rest =>
      match parseStringBody (rest.length + 1) [] rest with
      | none => none
      | some (key, rest2) =>
        match closing 0x3A rest2 with
        | none => none
        | some rest3 =>
          match parseValue fuel depth rest3 with
          | none => none
          | some (v, rest4) =>
            match skipSpace rest4 with
            | [] => none
            | c :: rest5 =>
              if c = 0x2C then
                match parseMembers fuel depth rest5 with
                | some (ms, rest6) => some ((key, v) :: ms, rest6)
                | none => none
              else if c = 0x7D then some ([(key, v)], rest5)
              else none
/-- Parses the elements of a non-empty array up to and including the closing
bracket. -/
def parseElements : Nat → Nat → List Nat → Option (List JSON × List Nat)
  | 0, _, _ => none
  | fuel + 1, depth, inp =>
    match parseValue fuel depth inp with
    | none => none
    | some (v, rest) =>
      match skipSpace rest with
      | [] => none
      | c :: rest2 =>
        if c = 0x2C then
          match parseElements fuel depth rest2 with
          | some (vs, rest3) => some (v :: vs, rest3)
          | none => none
        else if c = 0x5D then some ([v], rest2)
        else none
end

/-- Parses a whole body as one JSON value surrounded by optional whitespace
(`checkValid`): `none` is a syntax error. Every nested call consumes at least
one byte, so a recursion budget of the input length plus one is never
exhausted (`parseValue_budget_enough`). -/
def parseJSON (data : List Nat) : Option JSON :=
  match parseValue (data.length + 1) 0 data with
  | some (v, rest) =>
    match skipSpace rest with
    | [] => some v
    | _ :: _ => none
  | none => none

/-! ## Numbers: `strconv.ParseInt` and `strconv.ParseFloat` -/

/-- The call `strconv.ParseInt(s, 10, 64)` on a JSON number literal: it succeeds exactly
on a plain integer literal (no fraction, no exponent) inside the int64 range.
`int` is taken to be 64 bits wide, as on every 64-bit platform. -/
def parseInt64 (n : NumLit) : Option Int :=
  if n.integral then
    let v : Int := if n.neg then -(n.digits : Int) else (n.digits : Int)
    if -(2 : Int) ^ 63 ≤ v ∧ v < (2 : Int) ^ 63 then some v else none
  else none

/-- A finite IEEE 754 binary64 value `± mant * 2 ^ exp` in canonical form:
`mant < 2 ^ 53`, `-1074 ≤ exp ≤ 971`, and `exp = -1074` whenever
`mant < 2 ^ 52` (zero and the subnormals). -/
structure Float64 where
  neg : Bool
  mant : Nat
  exp : Int
  deriving DecidableEq, Repr

/-- The rational number a binary64 value denotes. -/
def Float64.toRat (f : Float64) : ℚ :=
  (if f.neg then -1 else 1) * (f.mant : ℚ) * (2 : ℚ) ^ f.exp

/-- Numerator of `num / (den * 2 ^ e)` after clearing the power of two. -/
def scaledNum (num : Nat) (e : Int) : Nat := if e < 0 then num * 2 ^ (-e).toNat else num

/-- Denominator of `num / (den * 2 ^ e)` after clearing the power of two. -/
def scaledDen (den : Nat) (e : Int) : Nat := if e < 0 then den else den * 2 ^ e.toNat

/-- The quotient `num / (den * 2 ^ e)` rounded to the nearest integer, ties to
even. -/
def roundRatio (num den : Nat) (e : Int) : Nat :=
  let q := scaledNum num e / scaledDen den e
  let r := scaledNum num e % scaledDen den e
  if 2 * r > scaledDen den e ∨ (2 * r = scaledDen den e ∧ q % 2 = 1) then q + 1 else q

/-- Binary logarithm by repeated halving; the first argument bounds the number
of halvings. -/
def log2Aux : Nat → Nat → Nat
  | 0, _ => 0
  | fuel + 1, n => if 2 ≤ n then log2Aux fuel (n / 2) + 1 else 0

/-- Floor of the binary logarithm (`0` at `0`). -/
def log2 (n : Nat) : Nat := log2Aux n n

/-- The positive rational `num / den` rounded to binary64, nearest with ties to
even (IEEE 754, the rounding `strconv.ParseFloat` documents); `none` is
overflow (`ErrRange`), underflow yields a subnormal or zero. -/
def roundFloat64 (neg : Bool) (num den : Nat) : Option Float64 :=
  if num = 0 then some ⟨neg, 0, -1074⟩
  else
    let e0 : Int := (log2 num : Int) - (log2 den : Int) - 53
    let e1 : Int := if 2 ^ 53 ≤ scaledNum num e0 / scaledDen den e0 then e0 + 1 else e0
    let e2 : Int := max e1 (-1074)
    let m := roundRatio num den e2
    let m3 : Nat := if m = 2 ^ 53 then 2 ^ 52 else m
    let e3 : Int := if m = 2 ^ 53 then e2 + 1 else e2
    if e3 > 971 then none else some ⟨neg, m3, e3⟩

/-- Numerator of the value of a number literal. -/
def NumLit.num (n : NumLit) : Nat :=
  if n.exp - n.scale < 0 then n.digits else n.digits * 10 ^ (n.exp - n.scale).toNat

/-- Denominator of the value of a number literal. -/
def NumLit.den (n : NumLit) : Nat :=
  if n.exp - n.scale < 0 then 10 ^ (-(n.exp - n.scale)).toNat else 1

/-- The rational number a literal denotes. -/
def NumLit.toRat (n : NumLit) : ℚ :=
  (if n.neg then -1 else 1) * ((n.num : ℚ) / (n.den : ℚ))

/-- The call `strconv.ParseFloat(s, 64)` on a JSON number literal. -/
def parseFloat64 (n : NumLit) : Option Float64 := roundFloat64 n.neg n.num n.den

/-! ## Errors -/

/-- Modelled from the spec: the error values of the client (§7, the types
themselves live in files that are not part of the visible sources), together
with the two errors of `encoding/json` that `json.Unmarshal` returns: a body
that is not valid JSON (`SyntaxError`) and a JSON value that does not fit the
Go field it is decoded into (`UnmarshalTypeError`, with the JSON kind and the
field). -/
inductive Error where
  | ConfigurationError (message : String)
  | TransportError (message : String)
  | HTTPError (status : Nat) (body : List Nat)
  | APIError (code : Int) (message : String)
  | CancelledError
  | SyntaxError
  | UnmarshalTypeError (value : String) (field : String)
  deriving DecidableEq, Repr

/-! ## Decoding into Go values -/

/-- Name of the kind of a JSON value, as it appears in `UnmarshalTypeError`. -/
def jsonKind : JSON → String
  | .null => "null"
  | .bool _ => "bool"
  | .num _ => "number"
  | .str _ => "string"
  | .arr _ => "array"
  | .obj _ => "object"

/-- First error wins (`d.saveError`). -/
def saveError (saved : Option Error) (e : Option Error) : Option Error :=
  match saved with
  | some s => some s
  | none => e

/-- Case folding of an object key for comparison with an ASCII field name:
ASCII letters are upper-cased, U+017F (long s) folds to `S` and U+212A (Kelvin
sign) to `K`, the only non-ASCII runes whose fold class contains an ASCII
letter. -/
def foldName : List Nat → List Nat
  | [] => []
  | 0xC5 :: 0xBF :: rest => 0x53 :: foldName rest
  | 0xE2 :: 0x84 :: 0xAA :: rest => 0x4B :: foldName rest
  | c :: rest => (if 0x61 ≤ c ∧ c ≤ 0x7A then c - 0x20 else c) :: foldName rest

/-- Case-insensitive match of an object key and an ASCII field name
(`bytes.EqualFold`). -/
def equalFold (key name : List Nat) : Bool := foldName key == foldName name

/-- The struct field an object key addresses: the field whose JSON name equals
the key, and failing that the first field whose name matches it
case-insensitively; `none` when the key is unknown (and ignored). -/
def lookupField {F : Type} (all : List F) (name : F → List Nat) (key : List Nat) : Option F :=
  match all.find? (fun f => name f == key) with
  | some f => some f
  | none => all.find? (fun f => equalFold key (name f))

/-- Decodes the members of a JSON object into a struct, in order: an unknown
key is skipped, a known key stores its value into the field, and the first
error is kept while decoding goes on. -/
def decodeMembers {S F : Type} (all : List F) (name : F → List Nat)
    (store : S → F → JSON → S × Option Error) :
    List (List Nat × JSON) → S → Option Error → S × Option Error
  | [], s, err => (s, err)
  | (k, v) :: ms, s, err =>
    match lookupField all name k with
    | none => decodeMembers all name store ms s err
    | some f => decodeMembers all name store ms (store s f v).1 (saveError err (store s f v).2)

/-- Stores a JSON value into a `bool`: `null` has no effect. -/
def decodeBool (field : String) (cur : Bool) (v : JSON) : Bool × Option Error :=
  match v with
  | .null => (cur, none)
  | .bool b => (b, none)
  | _ => (cur, some (.UnmarshalTypeError (jsonKind v) field))

/-- Stores a JSON value into a `string`: `null` has no effect. -/
def decodeString (field : String) (cur : List Nat) (v : JSON) : List Nat × Option Error :=
  match v with
  | .null => (cur, none)
  | .str s => (s, none)
  | _ => (cur, some (.UnmarshalTypeError (jsonKind v) field))

/-- Stores a JSON value into an `int64` or `int`: `null` has no effect, a
number must be an integer literal in range. -/
def decodeInt64 (field : String) (cur : Int) (v : JSON) : Int × Option Error :=
  match v with
  | .null => (cur, none)
  | .num n =>
    match parseInt64 n with
    | some i => (i, none)
    | none => (cur, some (.UnmarshalTypeError (jsonKind v) field))
  | _ => (cur, some (.UnmarshalTypeError (jsonKind v) field))

/-- Stores a JSON value into a `float64`: `null` has no effect, a number is
rounded to binary64 and must not overflow. -/
def decodeFloat64 (field : String) (cur : Float64) (v : JSON) : Float64 × Option Error :=
  match v with
  | .null => (cur, none)
  | .num n =>
    match parseFloat64 n with
    | some f => (f, none)
    | none => (cur, some (.UnmarshalTypeError (jsonKind v) field))
  | _ => (cur, some (.UnmarshalTypeError (jsonKind v) field))

/-- The call `json.Unmarshal(data, &s)` for a struct `s`: a body that is not valid JSON
is a `SyntaxError` and leaves `s` untouched, `null` has no effect, an object is
decoded member by member, any other value is a type error. The struct is
returned next to the error because decoding goes on after a type error. -/
def unmarshalStruct {S F : Type} (all : List F) (name : F → List Nat)
    (store : S → F → JSON → S × Option Error) (data : List Nat) (s : S) : S × Option Error :=
  match parseJSON data with
  | none => (s, some Error.SyntaxError)
  | some JSON.null => (s, none)
  | some (JSON.obj ms) => decodeMembers all name store ms s none
  | some v => (s, some (Error.UnmarshalTypeError (jsonKind v) ""))

/-! ## Response records -/

/-- Deposit represents a single deposit entry. -/
structure Deposit where
  InsertTime : Int
  Amount : Float64
  Asset : List Nat
  Address : List Nat
  AddressTag : List Nat
  TxID : List Nat
  Status : Int
  deriving DecidableEq, Repr

/-- The zero value of `Deposit` (what `new(Deposit)` points to). -/
def Deposit.zero : Deposit := ⟨0, ⟨false, 0, -1074⟩, [], [], [], [], 0⟩

/-- The fields of `Deposit`, in declaration order. -/
inductive DepositField where
  | InsertTime
  | Amount
  | Asset
  | Address
  | AddressTag
  | TxID
  | Status
  deriving DecidableEq, Repr

/-- All fields of `Deposit`, in declaration order. -/
def DepositField.all : List DepositField :=
  [.InsertTime, .Amount, .Asset, .Address, .AddressTag, .TxID, .Status]

/-- The `json:"..."` tag of each field of `Deposit`. -/
def DepositField.jsonName : DepositField → List Nat
  | .InsertTime => bytesOf "insertTime"
  | .Amount => bytesOf "amount"
  | .Asset => bytesOf "asset"
  | .Address => bytesOf "address"
  | .AddressTag => bytesOf "addressTag"
  | .TxID => bytesOf "txId"
  | .Status => bytesOf "status"

/-- Stores a JSON value into one field of a `Deposit`, by the Go type of the
field. -/
def Deposit.store (d : Deposit) (f : DepositField) (v : JSON) : Deposit × Option Error :=
  match f with
  | .InsertTime =>
    ({ d with InsertTime := (decodeInt64 "depositList.insertTime" d.InsertTime v).1 },
      (decodeInt64 "depositList.insertTime" d.InsertTime v).2)
  | .Amount =>
    ({ d with Amount := (decodeFloat64 "depositList.amount" d.Amount v).1 },
      (decodeFloat64 "depositList.amount" d.Amount v).2)
  | .Asset =>
    ({ d with Asset := (decodeString "depositList.asset" d.Asset v).1 },
      (decodeString "depositList.asset" d.Asset v).2)
  | .Address =>
    ({ d with Address := (decodeString "depositList.address" d.Address v).1 },
      (decodeString "depositList.address" d.Address v).2)
  | .AddressTag =>
    ({ d with AddressTag := (decodeString "depositList.addressTag" d.AddressTag v).1 },
      (decodeString "depositList.addressTag" d.AddressTag v).2)
  | .TxID =>
    ({ d with TxID := (decodeString "depositList.txId" d.TxID v).1 },
      (decodeString "depositList.txId" d.TxID v).2)
  | .Status =>
    ({ d with Status := (decodeInt64 "depositList.status" d.Status v).1 },
      (decodeInt64 "depositList.status" d.Status v).2)

/-- Decodes one element of `depositList` into a fresh `*Deposit`: `null` is the
nil pointer, an object fills a newly allocated `Deposit`, anything else is a
type error (reported on a newly allocated zero `Deposit`). -/
def decodeDepositPtr (v : JSON) : Option Deposit × Option Error :=
  match v with
  | .null => (none, none)
  | .obj ms =>
    (some (decodeMembers DepositField.all DepositField.jsonName Deposit.store ms Deposit.zero none).1,
      (decodeMembers DepositField.all DepositField.jsonName Deposit.store ms Deposit.zero none).2)
  | _ => (some Deposit.zero, some (Error.UnmarshalTypeError (jsonKind v) "depositList"))

/-- Decodes a JSON array into a `[]*Deposit`, as `Unmarshal` documents it: the
slice is reset and every element is appended in order, each decoded into a
fresh element; the first error is kept. (When an object repeats the
`depositList` key, Go may decode into the elements left by the earlier array;
the statements that name the returned list are about bodies with one
`depositList` member.) -/
def decodeDepositList : List JSON → List (Option Deposit) × Option Error
  | [] => ([], none)
  | x :: xs =>
    ((decodeDepositPtr x).1 :: (decodeDepositList xs).1,
      saveError (decodeDepositPtr x).2 (decodeDepositList xs).2)

/-- DepositHistoryResponse represents a response from ListDepositsService. -/
structure DepositHistoryResponse where
  Success : Bool
  Deposits : Option (List (Option Deposit))
  deriving DecidableEq, Repr

/-- The fields of `DepositHistoryResponse`. -/
inductive DepositHistoryField where
  | Success
  | Deposits
  deriving DecidableEq, Repr

/-- All fields of `DepositHistoryResponse`, in declaration order. -/
def DepositHistoryField.all : List DepositHistoryField := [.Success, .Deposits]

/-- The `json:"..."` tag of each field of `DepositHistoryResponse`. -/
def DepositHistoryField.jsonName : DepositHistoryField → List Nat
  | .Success => bytesOf "success"
  | .Deposits => bytesOf "depositList"

/-- Stores a JSON value into one field of a `DepositHistoryResponse`: for the
slice, `null` is the nil slice, an array is decoded element by element (an
empty array is the empty non-nil slice), anything else is a type error. -/
def DepositHistoryResponse.store (res : DepositHistoryResponse) (f : DepositHistoryField)
    (v : JSON) : DepositHistoryResponse × Option Error :=
  match f with
  | .Success =>
    ({ res with Success := (decodeBool "success" res.Success v).1 },
      (decodeBool "success" res.Success v).2)
  | .Deposits =>
    match v with
    | .null => ({ res with Deposits := none }, none)
    | .arr xs => ({ res with Deposits := some (decodeDepositList xs).1 }, (decodeDepositList xs).2)
    | _ => (res, some (Error.UnmarshalTypeError (jsonKind v) "depositList"))

/-- GetDepositAddressResponse represents a response from
GetDepositsAddressService. -/
structure GetDepositAddressResponse where
  Coin : List Nat
  Address : List Nat
  Tag : List Nat
  URL : List Nat
  deriving DecidableEq, Repr

/-- The fields of `GetDepositAddressResponse`. -/
inductive AddressField where
  | Coin
  | Address
  | Tag
  | URL
  deriving DecidableEq, Repr

/-- All fields of `GetDepositAddressResponse`, in declaration order. -/
def AddressField.all : List AddressField := [.Coin, .Address, .Tag, .URL]

/-- The `json:"..."` tag of each field of `GetDepositAddressResponse`. -/
def AddressField.jsonName : AddressField → List Nat
  | .Coin => bytesOf "coin"
  | .Address => bytesOf "address"
  | .Tag => bytesOf "tag"
  | .URL => bytesOf "url"

/-- Stores a JSON value into one (string) field of a
`GetDepositAddressResponse`. -/
def GetDepositAddressResponse.store (res : GetDepositAddressResponse) (f : AddressField)
    (v : JSON) : GetDepositAddressResponse × Option Error :=
  match f with
  | .Coin => ({ res with Coin := (decodeString "coin" res.Coin v).1 }, (decodeString "coin" res.Coin v).2)
  | .Address =>
    ({ res with Address := (decodeString "address" res.Address v).1 },
      (decodeString "address" res.Address v).2)
  | .Tag => ({ res with Tag := (decodeString "tag" res.Tag v).1 }, (decodeString "tag" res.Tag v).2)
  | .URL => ({ res with URL := (decodeString "url" res.URL v).1 }, (decodeString "url" res.URL v).2)

/-- The value of one field of a `GetDepositAddressResponse`. -/
def GetDepositAddressResponse.get (res : GetDepositAddressResponse) : AddressField → List Nat
  | .Coin => res.Coin
  | .Address => res.Address
  | .Tag => res.Tag
  | .URL => res.URL

/-! ## Requests and the client -/

/-- Modelled from the spec: the security classification of a request (public,
API-key-only, signed); the constants are declared outside the visible sources. -/
inductive secType where
  | secTypeNone
  | secTypeAPIKey
  | secTypeSigned
  deriving DecidableEq, Repr

/-- Modelled from the spec: a parameter value (string, int64, float64 or
bool). -/
inductive ParamValue where
  | str (v : String)
  | int (v : Int)
  | float (v : Float64)
  | bool (v : Bool)
  deriving DecidableEq, Repr

/-- Modelled from the spec: `set(key, value)` of the parameter set, an ordered
mapping with unique keys: an existing key is overwritten in place, a new key is
appended. -/
def setKey : List (String × ParamValue) → String → ParamValue → List (String × ParamValue)
  | [], key, value => [(key, value)]
  | (k, v) :: rest, key, value =>
    if k = key then (k, value) :: rest else (k, v) :: setKey rest key value

/-- Modelled from the spec: the request descriptor (method, endpoint, security
classification, parameter set); the struct is declared outside the visible
sources. -/
structure request where
  method : String
  endpoint : String
  secType : secType
  params : List (String × ParamValue)
  deriving DecidableEq, Repr

/-- Modelled from the spec: `r.setParam(key, value)` inserts or overwrites one
parameter of the request. -/
def request.setParam (r : request) (key : String) (value : ParamValue) : request :=
  { r with params := setKey r.params key value }

/-- Modelled from the spec: the client as seen by a service. `callAPI` signs
and sends a request and returns the raw body or an error; what the exchange
answers is a parameter (`respond`, which may depend on the requests sent
before), and `dispatched` records every request handed to `callAPI`. -/
structure Client where
  respond : List request → request → Except Error (List Nat)
  dispatched : List request

/-- Modelled from the spec: `c.callAPI(ctx, r)` dispatches the request and
returns the reply together with the client after the call. -/
def Client.callAPI (c : Client) (r : request) : Except Error (List Nat) × Client :=
  (c.respond c.dispatched r, { c with dispatched := c.dispatched ++ [r] })

/-- What a `Do` method leaves behind. `Do` has a pointer receiver, so the
builder it was called on is part of the state after the call, next to the two
results (`none` is nil) and the client after the call. -/
structure Outcome (σ α : Type) where
  builder : σ
  value : Option α
  err : Option Error
  client : Client

/-! ## ListDepositsService -/

/-- ListDepositsService fetches deposit history. The client pointer `c` is
passed to `Do` separately. -/
structure ListDepositsService where
  asset : Option String
  status : Option Int
  startTime : Option Int
  endTime : Option Int
  deriving DecidableEq, Repr

/-- A builder on which no setter has been called (`&ListDepositsService{c: c}`). -/
def NewListDepositsService : ListDepositsService := ⟨none, none, none, none⟩

/-- Asset sets the asset parameter. -/
def ListDepositsService.Asset (s : ListDepositsService) (asset : String) : ListDepositsService :=
  { s with asset := some asset }

/-- Status sets the status parameter. -/
def ListDepositsService.Status (s : ListDepositsService) (status : Int) : ListDepositsService :=
  { s with status := some status }

/-- StartTime sets the startTime parameter. -/
def ListDepositsService.StartTime (s : ListDepositsService) (startTime : Int) :
    ListDepositsService :=
  { s with startTime := some startTime }

/-- EndTime sets the endTime parameter. -/
def ListDepositsService.EndTime (s : ListDepositsService) (endTime : Int) : ListDepositsService :=
  { s with endTime := some endTime }

/-- The request `Do` builds before calling `callAPI` (lines 47 to 63). -/
def ListDepositsService.buildRequest (s : ListDepositsService) : request :=
  let r : request := ⟨"GET", "/wapi/v3/depositHistory.html", secType.secTypeSigned, []⟩
  let r := match s.asset with
    | some v => r.setParam "asset" (ParamValue.str v)
    | none => r
  let r := match s.status with
    | some v => r.setParam "status" (ParamValue.int v)
    | none => r
  let r := match s.startTime with
    | some v => r.setParam "startTime" (ParamValue.int v)
    | none => r
  match s.endTime with
  | some v => r.setParam "endTime" (ParamValue.int v)
  | none => r

/-- Do sends the request: an error of `callAPI` is returned as it is with nil
deposits, so is an error of `json.Unmarshal`; otherwise the decoded
`depositList` is returned with a nil error. The body reads the fields of the
receiver and assigns to none of them, so every return path leaves the builder
it was given. -/
def ListDepositsService.Do (s : ListDepositsService) (c : Client) :
    Outcome ListDepositsService (List (Option Deposit)) :=
  let r := s.buildRequest
  match (c.callAPI r).1 with
  | .error err => ⟨s, none, some err, (c.callAPI r).2⟩
  | .ok data =>
    let res : DepositHistoryResponse := ⟨false, none⟩
    match unmarshalStruct DepositHistoryField.all DepositHistoryField.jsonName
        DepositHistoryResponse.store data res with
    | (_, some err) => ⟨s, none, some err, (c.callAPI r).2⟩
    | (res, none) => ⟨s, res.Deposits, none, (c.callAPI r).2⟩

/-! ## GetDepositsAddressService -/

/-- GetDepositsAddressService retrieves the details of a deposit address.
`coin` is a plain string (empty until set), `network` a pointer. -/
structure GetDepositsAddressService where
  coin : String
  network : Option String
  deriving DecidableEq, Repr

/-- A builder on which no setter has been called
(`&GetDepositsAddressService{c: c}`). -/
def NewGetDepositsAddressService : GetDepositsAddressService := ⟨"", none⟩

/-- Coin sets the coin parameter (MANDATORY). -/
def GetDepositsAddressService.Coin (s : GetDepositsAddressService) (v : String) :
    GetDepositsAddressService :=
  { s with coin := v }

/-- Network sets the network parameter. -/
def GetDepositsAddressService.Network (s : GetDepositsAddressService) (v : String) :
    GetDepositsAddressService :=
  { s with network := some v }

/-- The request `Do` builds before calling `callAPI` (lines 117 to 125). -/
def GetDepositsAddressService.buildRequest (s : GetDepositsAddressService) : request :=
  let r : request := ⟨"GET", "/sapi/v1/capital/deposit/address", secType.secTypeSigned, []⟩
  let r := r.setParam "coin" (ParamValue.str s.coin)
  match s.network with
  | some v => r.setParam "network" (ParamValue.str v)
  | none => r

/-- Do sends the request: an error of `callAPI` or of `json.Unmarshal` is
returned with a nil response; otherwise the decoded response is returned with
a nil error. The body reads the fields of the receiver and assigns to none of
them, so every return path leaves the builder it was given. -/
def GetDepositsAddressService.Do (s : GetDepositsAddressService) (c : Client) :
    Outcome GetDepositsAddressService GetDepositAddressResponse :=
  let r := s.buildRequest
  match (c.callAPI r).1 with
  | .error err => ⟨s, none, some err, (c.callAPI r).2⟩
  | .ok data =>
    let res : GetDepositAddressResponse := ⟨[], [], [], []⟩
    match unmarshalStruct AddressField.all AddressField.jsonName
        GetDepositAddressResponse.store data res with
    | (_, some err) => ⟨s, none, some err, (c.callAPI r).2⟩
    | (res, none) => ⟨s, some res, none, (c.callAPI r).2⟩

/-! ## Builder states as sequences of setter calls -/

/-- One call of a setter of `ListDepositsService`. -/
inductive ListDepositsCall where
  | Asset (v : String)
  | Status (v : Int)
  | StartTime (v : Int)
  | EndTime (v : Int)
  deriving DecidableEq, Repr

/-- The builder after one setter call. -/
def ListDepositsService.call (s : ListDepositsService) : ListDepositsCall → ListDepositsService
  | .Asset v => s.Asset v
  | .Status v => s.Status v
  | .StartTime v => s.StartTime v
  | .EndTime v => s.EndTime v

/-- The builder after a chain of setter calls, first call first. -/
def ListDepositsService.calls (s : ListDepositsService) (cs : List ListDepositsCall) :
    ListDepositsService :=
  cs.foldl ListDepositsService.call s

/-- The value passed to the last `Asset` call of a chain, if there is one. -/
def lastAsset (cs : List ListDepositsCall) : Option String :=
  (cs.filterMap (fun c => match c with | .Asset v => some v | _ => none)).getLast?

/-- The value passed to the last `Status` call of a chain, if there is one. -/
def lastStatus (cs : List ListDepositsCall) : Option Int :=
  (cs.filterMap (fun c => match c with | .Status v => some v | _ => none)).getLast?

/-- The value passed to the last `StartTime` call of a chain, if there is one. -/
def lastStartTime (cs : List ListDepositsCall) : Option Int :=
  (cs.filterMap (fun c => match c with | .StartTime v => some v | _ => none)).getLast?

/-- The value passed to the last `EndTime` call of a chain, if there is one. -/
def lastEndTime (cs : List ListDepositsCall) : Option Int :=
  (cs.filterMap (fun c => match c with | .EndTime v => some v | _ => none)).getLast?

/-- One call of a setter of `GetDepositsAddressService`. -/
inductive AddressCall where
  | Coin (v : String)
  | Network (v : String)
  deriving DecidableEq, Repr

/-- The builder after one setter call. -/
def GetDepositsAddressService.call (s : GetDepositsAddressService) :
    AddressCall → GetDepositsAddressService
  | .Coin v => s.Coin v
  | .Network v => s.Network v

/-- The builder after a chain of setter calls, first call first. -/
def GetDepositsAddressService.calls (s : GetDepositsAddressService) (cs : List AddressCall) :
    GetDepositsAddressService :=
  cs.foldl GetDepositsAddressService.call s

/-- The value passed to the last `Coin` call of a chain, if there is one. -/
def lastCoin (cs : List AddressCall) : Option String :=
  (cs.filterMap (fun c => match c with | .Coin v => some v | _ => none)).getLast?

/-- The value passed to the last `Network` call of a chain, if there is one. -/
def lastNetwork (cs : List AddressCall) : Option String :=
  (cs.filterMap (fun c => match c with | .Network v => some v | _ => none)).getLast?

/-! ## Concrete inputs used by the closed statements -/

/-- A client whose exchange answers every request with the given ASCII body. -/
def clientAnswering (body : String) : Client := ⟨fun _ _ => .ok (bytesOf body), []⟩

/-- A client whose exchange answers every request with the given bytes. -/
def clientAnsweringBytes (data : List Nat) : Client := ⟨fun _ _ => .ok data, []⟩

/-- A deposit address body, byte by byte, whose `coin` holds the three UTF-8
bytes of U+20AC and whose `address` holds the single byte `0xFF`, which is not
valid UTF-8. -/
def rawAddressBody : List Nat :=
  bytesOf "\x7b\"coin\":\"" ++ [0xE2, 0x82, 0xAC] ++ bytesOf "\",\"address\":\"" ++ [0xFF] ++
    bytesOf "\",\"tag\":\"\",\"url\":\"\"\x7d"

/-- A client whose `callAPI` fails with the given error. -/
def clientFailing (e : Error) : Client := ⟨fun _ _ => .error e, []⟩

/-- A deposit history builder with all four parameters set. -/
def sampleDepositsBuilder : ListDepositsService :=
  (((NewListDepositsService.Asset "ETH").Status 0).StartTime 1508198532000).EndTime 1508198532001

/-- A deposit address builder with coin and network set. -/
def sampleAddressBuilder : GetDepositsAddressService :=
  (NewGetDepositsAddressService.Coin "BTC").Network "BNB"

/-! ## Vocabulary of the statements on decoding -/

/-- The members of an object that address the field `f` of a struct (by exact
or case-insensitive key match), in order. -/
def membersFor {F : Type} [DecidableEq F] (all : List F) (name : F → List Nat) (f : F)
    (ms : List (List Nat × JSON)) : List (List Nat × JSON) :=
  ms.filter (fun m => decide (lookupField all name m.1 = some f))

/-- The JSON kind the Go type of a `Deposit` field is decoded from. -/
def DepositField.kind : DepositField → String
  | .InsertTime => "number"
  | .Amount => "number"
  | .Asset => "string"
  | .Address => "string"
  | .AddressTag => "string"
  | .TxID => "string"
  | .Status => "number"

/-- A member value of the wrong JSON type for a `Deposit` field: it is not
`null` (which Go treats as absent) and its kind is not the kind of the field. -/
def wrongJSONType (f : DepositField) (v : JSON) : Bool :=
  jsonKind v != "null" && jsonKind v != f.kind

/-- A malformed `depositList` entry: an object with a member of the wrong JSON
type for the field it addresses, or an entry that is neither an object nor
`null`. -/
def entryMalformed (e : JSON) : Bool :=
  match e with
  | .null => false
  | .obj ems =>
    ems.any (fun m =>
      match lookupField DepositField.all DepositField.jsonName m.1 with
      | some f => wrongJSONType f m.2
      | none => false)
  | _ => true

/-- An error of `json.Unmarshal`: a syntax error or a type error. -/
def Error.isJSONError : Error → Bool
  | .SyntaxError => true
  | .UnmarshalTypeError _ _ => true
  | _ => false

/-- The value of a number literal is exactly a binary64 value: its magnitude is
`m * 2 ^ e` for a canonical pair, `m < 2 ^ 53`, `-1074 ≤ e ≤ 971`, and
`e = -1074` when `m < 2 ^ 52`. -/
def NumLit.representable (n : NumLit) : Prop :=
  ∃ (m : Nat) (e : Int), m < 2 ^ 53 ∧ -1074 ≤ e ∧ e ≤ 971 ∧ (m < 2 ^ 52 → e = -1074) ∧
    (n.num : ℚ) / (n.den : ℚ) = (m : ℚ) * (2 : ℚ) ^ e

/-! ## The recursion budget of the scanner is never the reason for a rejection -/

/-- Skipping whitespace never lengthens the input. -/
theorem skipSpace_length (l : List Nat) : (skipSpace l).length ≤ l.length := by
  induction l with
  | nil => simp [skipSpace]
  | cons c rest ih =>
    unfold skipSpace
    split
    · simp; omega
    · simp

/-- Four hexadecimal digits take four bytes. -/
theorem hex4_length (bs : List Nat) (r : Nat) (rest : List Nat) (h : hex4 bs = some (r, rest)) :
    rest.length + 4 = bs.length := by
  unfold hex4 at h
  split at h
  · split at h
    · simp at h; obtain ⟨-, rfl⟩ := h; simp
    · simp at h
  · simp at h

/-- A `\u` escape takes six bytes. -/
theorem getu4_length (bs : List Nat) (r : Nat) (rest : List Nat) (h : getu4 bs = some (r, rest)) :
    rest.length + 6 = bs.length := by
  unfold getu4 at h
  split at h
  · have := hex4_length _ _ _ h
    simp; omega
  · simp at h

/-- Stripping a fixed byte sequence never lengthens the input. -/
theorem expectBytes_length (p inp rest : List Nat) (h : expectBytes p inp = some rest) :
    rest.length ≤ inp.length := by
  induction p generalizing inp with
  | nil => simp [expectBytes] at h; subst h; exact le_refl _
  | cons a p ih =>
    cases inp with
    | nil => simp [expectBytes] at h
    | cons c inp =>
      simp only [expectBytes] at h
      split at h
      · have := ih inp h; simp; omega
      · simp at h

/-- Reading digits never lengthens the input. -/
theorem readDigits_length (l : List Nat) (v n : Nat) :
    (readDigits l v n).2.2.length ≤ l.length := by
  induction l generalizing v n with
  | nil => simp [readDigits]
  | cons c rest ih =>
    unfold readDigits
    split
    · have := ih (v * 10 + (c - 0x30)) (n + 1); simp; omega
    · simp

/-- Reading digits from an input that starts with a digit consumes that digit. -/
theorem readDigits_length_lt (c : Nat) (l : List Nat) (v n : Nat) (hc : isDigit c = true) :
    (readDigits (c :: l) v n).2.2.length ≤ l.length := by
  unfold readDigits
  rw [if_pos hc]
  exact readDigits_length l _ _

/-- A string literal that is read with some budget consumes at least its closing quote, and is
read with the same result with every budget that covers the bytes consumed. -/
theorem parseStringBody_fuel : ∀ (fuel : Nat) (acc inp s rest : List Nat),
    parseStringBody fuel acc inp = some (s, rest) →
    rest.length < inp.length ∧
      ∀ m, inp.length - rest.length ≤ m → parseStringBody m acc inp = some (s, rest) := by
  intro fuel
  induction fuel with
  | zero => intro acc inp s rest h; simp [parseStringBody] at h
  | succ fuel ih =>
    intro acc inp s rest h
    cases inp with
    | nil => simp [parseStringBody] at h
    | cons c tl =>
      rw [parseStringBody.eq_def] at h
      simp only at h
      have key : rest.length < (c :: tl).length ∧
          ∀ m, (c :: tl).length - rest.length ≤ m + 1 →
            parseStringBody (m + 1) acc (c :: tl) = some (s, rest) := by
        by_cases h1 : c = 0x22
        · rw [if_pos h1] at h
          simp only [Option.some.injEq, Prod.mk.injEq] at h
          obtain ⟨rfl, rfl⟩ := h
          refine ⟨by simp, fun m _ => ?_⟩
          rw [parseStringBody.eq_def]
          simp only [if_pos h1]
        rw [if_neg h1] at h
        by_cases h2 : c < 0x20
        · rw [if_pos h2] at h; simp at h
        rw [if_neg h2] at h
        by_cases h3 : c = 0x5C
        · rw [if_pos h3] at h
          cases tl with
          | nil => simp at h
          | cons e rest2 =>
            simp only at h
            by_cases e1 : e = 0x22 ∨ e = 0x5C ∨ e = 0x2F
            · rw [if_pos e1] at h
              obtain ⟨hl, hm⟩ := ih _ _ _ _ h
              refine ⟨by simp; omega, fun m hmle => ?_⟩
              rw [parseStringBody.eq_def]
              simp only [if_neg h1, if_neg h2, if_pos h3, if_pos e1]
              exact hm m (by simp at hmle; omega)
            rw [if_neg e1] at h
            by_cases e2 : e = 0x62
            · rw [if_pos e2] at h
              obtain ⟨hl, hm⟩ := ih _ _ _ _ h
              refine ⟨by simp; omega, fun m hmle => ?_⟩
              rw [parseStringBody.eq_def]
              simp only [if_neg h1, if_neg h2, if_pos h3, if_neg e1, if_pos e2]
              exact hm m (by simp at hmle; omega)
            rw [if_neg e2] at h
            by_cases e3 : e = 0x66
            · rw [if_pos e3] at h
              obtain ⟨hl, hm⟩ := ih _ _ _ _ h
              refine ⟨by simp; omega, fun m hmle => ?_⟩
              rw [parseStringBody.eq_def]
              simp only [if_neg h1, if_neg h2, if_pos h3, if_neg e1, if_neg e2, if_pos e3]
              exact hm m (by simp at hmle; omega)
            rw [if_neg e3] at h
            by_cases e4 : e = 0x6E
            · rw [if_pos e4] at h
              obtain ⟨hl, hm⟩ := ih _ _ _ _ h
              refine ⟨by simp; omega, fun m hmle => ?_⟩
              rw [parseStringBody.eq_def]
              simp only [if_neg h1, if_neg h2, if_pos h3, if_neg e1, if_neg e2, if_neg e3,
                if_pos e4]
              exact hm m (by simp at hmle; omega)
            rw [if_neg e4] at h
            by_cases e5 : e = 0x72
            · rw [if_pos e5] at h
              obtain ⟨hl, hm⟩ := ih _ _ _ _ h
              refine ⟨by simp; omega, fun m hmle => ?_⟩
              rw [parseStringBody.eq_def]
              simp only [if_neg h1, if_neg h2, if_pos h3, if_neg e1, if_neg e2, if_neg e3,
                if_neg e4, if_pos e5]
              exact hm m (by simp at hmle; omega)
            rw [if_neg e5] at h
            by_cases e6 : e = 0x74
            · rw [if_pos e6] at h
              obtain ⟨hl, hm⟩ := ih _ _ _ _ h
              refine ⟨by simp; omega, fun m hmle => ?_⟩
              rw [parseStringBody.eq_def]
              simp only [if_neg h1, if_neg h2, if_pos h3, if_neg e1, if_neg e2, if_neg e3,
                if_neg e4, if_neg e5, if_pos e6]
              exact hm m (by simp at hmle; omega)
            rw [if_neg e6] at h
            by_cases e7 : e = 0x75
            · rw [if_pos e7] at h
              cases hh : hex4 rest2 with
              | none => rw [hh] at h; simp at h
              | some p =>
                obtain ⟨r1, rest3⟩ := p
                rw [hh] at h
                simp only at h
                have h4 := hex4_length _ _ _ hh
                by_cases s1 : 0xD800 ≤ r1 ∧ r1 < 0xE000
                · rw [if_pos s1] at h
                  cases hg : getu4 rest3 with
                  | none =>
                    rw [hg] at h
                    obtain ⟨hl, hm⟩ := ih _ _ _ _ h
                    refine ⟨by simp; omega, fun m hmle => ?_⟩
                    rw [parseStringBody.eq_def]
                    simp only [if_neg h1, if_neg h2, if_pos h3, if_neg e1, if_neg e2, if_neg e3,
                      if_neg e4, if_neg e5, if_neg e6, if_pos e7, hh, if_pos s1, hg]
                    exact hm m (by simp at hmle; omega)
                  | some q =>
                    obtain ⟨r2, rest4⟩ := q
                    rw [hg] at h
                    simp only at h
                    have h6 := getu4_length _ _ _ hg
                    by_cases s2 : r1 < 0xDC00 ∧ 0xDC00 ≤ r2 ∧ r2 < 0xE000
                    · rw [if_pos s2] at h
                      obtain ⟨hl, hm⟩ := ih _ _ _ _ h
                      refine ⟨by simp; omega, fun m hmle => ?_⟩
                      rw [parseStringBody.eq_def]
                      simp only [if_neg h1, if_neg h2, if_pos h3, if_neg e1, if_neg e2,
                        if_neg e3, if_neg e4, if_neg e5, if_neg e6, if_pos e7, hh, if_pos s1, hg,
                        if_pos s2]
                      exact hm m (by simp at hmle; omega)
                    · rw [if_neg s2] at h
                      obtain ⟨hl, hm⟩ := ih _ _ _ _ h
                      refine ⟨by simp; omega, fun m hmle => ?_⟩
                      rw [parseStringBody.eq_def]
                      simp only [if_neg h1, if_neg h2, if_pos h3, if_neg e1, if_neg e2,
                        if_neg e3, if_neg e4, if_neg e5, if_neg e6, if_pos e7, hh, if_pos s1, hg,
                        if_neg s2]
                      exact hm m (by simp at hmle; omega)
                · rw [if_neg s1] at h
                  obtain ⟨hl, hm⟩ := ih _ _ _ _ h
                  refine ⟨by simp; omega, fun m hmle => ?_⟩
                  rw [parseStringBody.eq_def]
                  simp only [if_neg h1, if_neg h2, if_pos h3, if_neg e1, if_neg e2, if_neg e3,
                    if_neg e4, if_neg e5, if_neg e6, if_pos e7, hh, if_neg s1]
                  exact hm m (by simp at hmle; omega)
            · rw [if_neg e7] at h; simp at h
        rw [if_neg h3] at h
        by_cases h4 : c < 0x80
        · rw [if_pos h4] at h
          obtain ⟨hl, hm⟩ := ih _ _ _ _ h
          refine ⟨by simp; omega, fun m hmle => ?_⟩
          rw [parseStringBody.eq_def]
          simp only [if_neg h1, if_neg h2, if_neg h3, if_pos h4]
          exact hm m (by simp at hmle; omega)
        rw [if_neg h4] at h
        cases hu : utf8SeqLen (c :: tl) with
        | zero =>
          rw [hu] at h
          obtain ⟨hl, hm⟩ := ih _ _ _ _ h
          refine ⟨by simp; omega, fun m hmle => ?_⟩
          rw [parseStringBody.eq_def]
          simp only [if_neg h1, if_neg h2, if_neg h3, if_neg h4, hu]
          exact hm m (by simp at hmle; omega)
        | succ k =>
          rw [hu] at h
          obtain ⟨hl, hm⟩ := ih _ _ _ _ h
          simp only [List.length_drop, List.length_cons] at hl hm
          refine ⟨by simp; omega, fun m hmle => ?_⟩
          rw [parseStringBody.eq_def]
          simp only [if_neg h1, if_neg h2, if_neg h3, if_neg h4, hu]
          exact hm m (by simp at hmle; omega)
      refine ⟨key.1, fun m hmle => ?_⟩
      obtain ⟨m2, rfl⟩ : ∃ m2, m = m2 + 1 := ⟨m - 1, by have := key.1; omega⟩
      exact key.2 m2 hmle

/-- Reading a string literal consumes at least one byte. -/
theorem parseStringBody_length (fuel : Nat) (acc inp s rest : List Nat)
    (h : parseStringBody fuel acc inp = some (s, rest)) : rest.length < inp.length :=
  (parseStringBody_fuel fuel acc inp s rest h).1

/-- The step budget given to `parseStringBody` (the input length plus one) is
enough: a string literal that can be read with some budget is read, with the
same result, with that one. -/
theorem parseStringBody_budget_enough (n : Nat) (acc inp s rest : List Nat)
    (h : parseStringBody n acc inp = some (s, rest)) :
    parseStringBody (inp.length + 1) acc inp = some (s, rest) :=
  (parseStringBody_fuel n acc inp s rest h).2 (inp.length + 1) (by omega)

/-- Reading the fraction of a number never lengthens the input. -/
theorem parseFraction_length (iv : Nat) (inp : List Nat) (dv sc : Nat) (plain : Bool)
    (rest : List Nat) (h : parseFraction iv inp = some (dv, sc, plain, rest)) :
    rest.length ≤ inp.length := by
  unfold parseFraction at h
  split at h
  · rename_i r
    split at h
    · simp at h
    · simp only [Option.some.injEq, Prod.mk.injEq] at h
      obtain ⟨-, -, -, rfl⟩ := h
      have := readDigits_length r iv 0
      simp; omega
  · simp only [Option.some.injEq, Prod.mk.injEq] at h
    obtain ⟨-, -, -, rfl⟩ := h
    exact le_refl _

/-- Reading the exponent of a number never lengthens the input. -/
theorem parseExponent_length (inp : List Nat) (ev : Option Int) (rest : List Nat)
    (h : parseExponent inp = some (ev, rest)) : rest.length ≤ inp.length := by
  unfold parseExponent at h
  split at h
  · simp at h; obtain ⟨-, rfl⟩ := h; simp
  · rename_i e r
    split at h
    · split at h
      · rename_i r2
        split at h
        · simp at h
        · simp only [Option.some.injEq, Prod.mk.injEq] at h
          obtain ⟨-, rfl⟩ := h
          have := readDigits_length r2 0 0
          simp; omega
      · rename_i r2
        split at h
        · simp at h
        · simp only [Option.some.injEq, Prod.mk.injEq] at h
          obtain ⟨-, rfl⟩ := h
          have := readDigits_length r2 0 0
          simp; omega
      · split at h
        · simp at h
        · simp only [Option.some.injEq, Prod.mk.injEq] at h
          obtain ⟨-, rfl⟩ := h
          have := readDigits_length r 0 0
          simp; omega
    · simp only [Option.some.injEq, Prod.mk.injEq] at h
      obtain ⟨-, rfl⟩ := h
      exact le_refl _

/-- Reading a number literal consumes at least one byte. -/
theorem parseNumberBody_length (neg : Bool) (inp : List Nat) (n : NumLit) (rest : List Nat)
    (h : parseNumberBody neg inp = some (n, rest)) : rest.length < inp.length := by
  cases inp with
  | nil => simp [parseNumberBody] at h
  | cons c tl =>
    unfold parseNumberBody at h
    simp only at h
    by_cases hd : isDigit c = true
    · simp only [hd, Bool.not_true, Bool.false_eq_true, if_false] at h
      have hr1 : (if c = 0x30 then tl else (readDigits (c :: tl) 0 0).2.2).length ≤ tl.length := by
        split
        · exact le_refl _
        · exact readDigits_length_lt c tl 0 0 hd
      cases hf : parseFraction (if c = 0x30 then 0 else (readDigits (c :: tl) 0 0).1)
          (if c = 0x30 then tl else (readDigits (c :: tl) 0 0).2.2) with
      | none => rw [hf] at h; simp at h
      | some p =>
        obtain ⟨dv, sc, plain, r⟩ := p
        rw [hf] at h
        simp only at h
        have h1 := parseFraction_length _ _ _ _ _ _ hf
        cases he : parseExponent r with
        | none => rw [he] at h; simp at h
        | some q =>
          obtain ⟨ev, r2⟩ := q
          have h2 := parseExponent_length _ _ _ he
          rw [he] at h
          cases ev with
          | none =>
            simp only [Option.some.injEq, Prod.mk.injEq] at h
            obtain ⟨-, rfl⟩ := h
            simp; omega
          | some x =>
            simp only [Option.some.injEq, Prod.mk.injEq] at h
            obtain ⟨-, rfl⟩ := h
            simp; omega
    · simp [hd] at h

/-- An expected byte, once found, has been consumed. -/
theorem closing_length (b : Nat) (inp rest : List Nat) (h : closing b inp = some rest) :
    rest.length < inp.length := by
  unfold closing at h
  cases hs : skipSpace inp with
  | nil => rw [hs] at h; simp at h
  | cons c r =>
    rw [hs] at h
    simp only at h
    have := skipSpace_length inp
    rw [hs] at this
    split at h
    · simp at h; subst h; simp at this; omega
    · simp at h

/-- One unfolding of `parseValue`: a value parsed with budget `n + 1` consumes input and is parsed
with every budget that covers the bytes consumed, given the same for budget `n`. -/
theorem parseValue_fuel_step (n : Nat)
    (ihM : ∀ d inp ms rest, parseMembers n d inp = some (ms, rest) →
      rest.length < inp.length ∧
        ∀ m, inp.length - rest.length ≤ m → parseMembers m d inp = some (ms, rest))
    (ihE : ∀ d inp xs rest, parseElements n d inp = some (xs, rest) →
      rest.length < inp.length ∧
        ∀ m, inp.length - rest.length ≤ m → parseElements m d inp = some (xs, rest))
    (d : Nat) (inp : List Nat) (v : JSON) (rest : List Nat)
    (h : parseValue (n + 1) d inp = some (v, rest)) :
    rest.length < inp.length ∧
      ∀ m, inp.length - rest.length ≤ m + 1 → parseValue (m + 1) d inp = some (v, rest) := by
  simp only [parseValue] at h ⊢
  cases hs : skipSpace inp with
  | nil => rw [hs] at h; simp at h
  | cons c r0 =>
    have hlen : r0.length + 1 ≤ inp.length := by
      have := skipSpace_length inp
      rw [hs] at this
      simpa using this
    rw [hs] at h
    simp only at h ⊢
    by_cases c1 : c = 0x7B
    · rw [if_pos c1] at h
      simp only [if_pos c1]
      by_cases hd : d + 1 > maxNestingDepth
      · rw [if_pos hd] at h; simp at h
      rw [if_neg hd] at h
      simp only [if_neg hd]
      cases hcl : closing 0x7D r0 with
      | some r2 =>
        rw [hcl] at h
        simp only [Option.some.injEq, Prod.mk.injEq] at h
        obtain ⟨rfl, rfl⟩ := h
        have := closing_length _ _ _ hcl
        exact ⟨by omega, fun m _ => rfl⟩
      | none =>
        rw [hcl] at h
        simp only at h ⊢
        cases hpm : parseMembers n (d + 1) r0 with
        | none => rw [hpm] at h; simp at h
        | some p =>
          obtain ⟨ms, r2⟩ := p
          rw [hpm] at h
          simp only [Option.some.injEq, Prod.mk.injEq] at h
          obtain ⟨rfl, rfl⟩ := h
          obtain ⟨hl, hm⟩ := ihM _ _ _ _ hpm
          refine ⟨by omega, fun m hmle => ?_⟩
          rw [hm m (by omega)]
    rw [if_neg c1] at h
    simp only [if_neg c1]
    by_cases c2 : c = 0x5B
    · rw [if_pos c2] at h
      simp only [if_pos c2]
      by_cases hd : d + 1 > maxNestingDepth
      · rw [if_pos hd] at h; simp at h
      rw [if_neg hd] at h
      simp only [if_neg hd]
      cases hcl : closing 0x5D r0 with
      | some r2 =>
        rw [hcl] at h
        simp only [Option.some.injEq, Prod.mk.injEq] at h
        obtain ⟨rfl, rfl⟩ := h
        have := closing_length _ _ _ hcl
        exact ⟨by omega, fun m _ => rfl⟩
      | none =>
        rw [hcl] at h
        simp only at h ⊢
        cases hpe : parseElements n (d + 1) r0 with
        | none => rw [hpe] at h; simp at h
        | some p =>
          obtain ⟨xs, r2⟩ := p
          rw [hpe] at h
          simp only [Option.some.injEq, Prod.mk.injEq] at h
          obtain ⟨rfl, rfl⟩ := h
          obtain ⟨hl, hm⟩ := ihE _ _ _ _ hpe
          refine ⟨by omega, fun m hmle => ?_⟩
          rw [hm m (by omega)]
    rw [if_neg c2] at h
    simp only [if_neg c2]
    refine ⟨?_, fun m _ => h⟩
    by_cases c3 : c = 0x22
    · rw [if_pos c3] at h
      cases hps : parseStringBody (r0.length + 1) [] r0 with
      | none => rw [hps] at h; simp at h
      | some p =>
        obtain ⟨s, r2⟩ := p
        rw [hps] at h
        simp only [Option.some.injEq, Prod.mk.injEq] at h
        obtain ⟨-, rfl⟩ := h
        have := parseStringBody_length _ _ _ _ _ hps
        omega
    rw [if_neg c3] at h
    by_cases c4 : c = 0x74
    · rw [if_pos c4] at h
      cases hx : expectBytes [0x72, 0x75, 0x65] r0 with
      | none => rw [hx] at h; simp at h
      | some r2 =>
        rw [hx] at h
        simp only [Option.some.injEq, Prod.mk.injEq] at h
        obtain ⟨-, rfl⟩ := h
        have := expectBytes_length _ _ _ hx
        omega
    rw [if_neg c4] at h
    by_cases c5 : c = 0x66
    · rw [if_pos c5] at h
      cases hx : expectBytes [0x61, 0x6C, 0x73, 0x65] r0 with
      | none => rw [hx] at h; simp at h
      | some r2 =>
        rw [hx] at h
        simp only [Option.some.injEq, Prod.mk.injEq] at h
        obtain ⟨-, rfl⟩ := h
        have := expectBytes_length _ _ _ hx
        omega
    rw [if_neg c5] at h
    by_cases c6 : c = 0x6E
    · rw [if_pos c6] at h
      cases hx : expectBytes [0x75, 0x6C, 0x6C] r0 with
      | none => rw [hx] at h; simp at h
      | some r2 =>
        rw [hx] at h
        simp only [Option.some.injEq, Prod.mk.injEq] at h
        obtain ⟨-, rfl⟩ := h
        have := expectBytes_length _ _ _ hx
        omega
    rw [if_neg c6] at h
    by_cases c7 : c = 0x2D
    · rw [if_pos c7] at h
      cases hx : parseNumberBody true r0 with
      | none => rw [hx] at h; simp at h
      | some p =>
        obtain ⟨x, r2⟩ := p
        rw [hx] at h
        simp only [Option.some.injEq, Prod.mk.injEq] at h
        obtain ⟨-, rfl⟩ := h
        have := parseNumberBody_length _ _ _ _ hx
        omega
    rw [if_neg c7] at h
    cases hx : parseNumberBody false (c :: r0) with
    | none => rw [hx] at h; simp at h
    | some p =>
      obtain ⟨x, r2⟩ := p
      rw [hx] at h
      simp only [Option.some.injEq, Prod.mk.injEq] at h
      obtain ⟨-, rfl⟩ := h
      have := parseNumberBody_length _ _ _ _ hx
      simp only [List.length_cons] at this
      omega

/-- One unfolding of `parseMembers`, as for `parseValue`. -/
theorem parseMembers_fuel_step (n : Nat)
    (ihV : ∀ d inp v rest, parseValue n d inp = some (v, rest) →
      rest.length < inp.length ∧
        ∀ m, inp.length - rest.length ≤ m → parseValue m d inp = some (v, rest))
    (ihM : ∀ d inp ms rest, parseMembers n d inp = some (ms, rest) →
      rest.length < inp.length ∧
        ∀ m, inp.length - rest.length ≤ m → parseMembers m d inp = some (ms, rest))
    (d : Nat) (inp : List Nat) (ms : List (List Nat × JSON)) (rest : List Nat)
    (h : parseMembers (n + 1) d inp = some (ms, rest)) :
    rest.length < inp.length ∧
      ∀ m, inp.length - rest.length ≤ m + 1 → parseMembers (m + 1) d inp = some (ms, rest) := by
  simp only [parseMembers] at h ⊢
  cases hq : closing 0x22 inp with
  | none => rw [hq] at h; simp at h
  | some r1 =>
    have l1 := closing_length _ _ _ hq
    rw [hq] at h
    simp only at h ⊢
    cases hk : parseStringBody (r1.length + 1) [] r1 with
    | none => rw [hk] at h; simp at h
    | some p =>
      obtain ⟨key, r2⟩ := p
      have l2 := parseStringBody_length _ _ _ _ _ hk
      rw [hk] at h
      simp only at h ⊢
      cases hcol : closing 0x3A r2 with
      | none => rw [hcol] at h; simp at h
      | some r3 =>
        have l3 := closing_length _ _ _ hcol
        rw [hcol] at h
        simp only at h ⊢
        cases hv : parseValue n d r3 with
        | none => rw [hv] at h; simp at h
        | some q =>
          obtain ⟨v, r4⟩ := q
          obtain ⟨l4, hmv⟩ := ihV _ _ _ _ hv
          rw [hv] at h
          simp only at h
          cases hs : skipSpace r4 with
          | nil => rw [hs] at h; simp at h
          | cons c r5 =>
            have l5 : r5.length + 1 ≤ r4.length := by
              have := skipSpace_length r4
              rw [hs] at this
              simpa using this
            rw [hs] at h
            simp only at h
            by_cases c1 : c = 0x2C
            · rw [if_pos c1] at h
              cases hm2 : parseMembers n d r5 with
              | none => rw [hm2] at h; simp at h
              | some t =>
                obtain ⟨ms2, r6⟩ := t
                obtain ⟨l6, hmm⟩ := ihM _ _ _ _ hm2
                rw [hm2] at h
                simp only [Option.some.injEq, Prod.mk.injEq] at h
                obtain ⟨rfl, rfl⟩ := h
                refine ⟨by omega, fun m hmle => ?_⟩
                rw [hmv m (by omega)]
                simp only [hs, if_pos c1]
                rw [hmm m (by omega)]
            · rw [if_neg c1] at h
              by_cases c2 : c = 0x7D
              · rw [if_pos c2] at h
                simp only [Option.some.injEq, Prod.mk.injEq] at h
                obtain ⟨rfl, rfl⟩ := h
                refine ⟨by omega, fun m hmle => ?_⟩
                rw [hmv m (by omega)]
                simp only [hs, if_neg c1, if_pos c2]
              · rw [if_neg c2] at h; simp at h

/-- One unfolding of `parseElements`, as for `parseValue`. -/
theorem parseElements_fuel_step (n : Nat)
    (ihV : ∀ d inp v rest, parseValue n d inp = some (v, rest) →
      rest.length < inp.length ∧
        ∀ m, inp.length - rest.length ≤ m → parseValue m d inp = some (v, rest))
    (ihE : ∀ d inp xs rest, parseElements n d inp = some (xs, rest) →
      rest.length < inp.length ∧
        ∀ m, inp.length - rest.length ≤ m → parseElements m d inp = some (xs, rest))
    (d : Nat) (inp : List Nat) (xs : List JSON) (rest : List Nat)
    (h : parseElements (n + 1) d inp = some (xs, rest)) :
    rest.length < inp.length ∧
      ∀ m, inp.length - rest.length ≤ m + 1 → parseElements (m + 1) d inp = some (xs, rest) := by
  simp only [parseElements] at h ⊢
  cases hv : parseValue n d inp with
  | none => rw [hv] at h; simp at h
  | some q =>
    obtain ⟨v, r1⟩ := q
    obtain ⟨l1, hmv⟩ := ihV _ _ _ _ hv
    rw [hv] at h
    simp only at h
    cases hs : skipSpace r1 with
    | nil => rw [hs] at h; simp at h
    | cons c r2 =>
      have l2 : r2.length + 1 ≤ r1.length := by
        have := skipSpace_length r1
        rw [hs] at this
        simpa using this
      rw [hs] at h
      simp only at h
      by_cases c1 : c = 0x2C
      · rw [if_pos c1] at h
        cases he2 : parseElements n d r2 with
        | none => rw [he2] at h; simp at h
        | some t =>
          obtain ⟨xs2, r3⟩ := t
          obtain ⟨l3, hme⟩ := ihE _ _ _ _ he2
          rw [he2] at h
          simp only [Option.some.injEq, Prod.mk.injEq] at h
          obtain ⟨rfl, rfl⟩ := h
          refine ⟨by omega, fun m hmle => ?_⟩
          rw [hmv m (by omega)]
          simp only [hs, if_pos c1]
          rw [hme m (by omega)]
      · rw [if_neg c1] at h
        by_cases c2 : c = 0x5D
        · rw [if_pos c2] at h
          simp only [Option.some.injEq, Prod.mk.injEq] at h
          obtain ⟨rfl, rfl⟩ := h
          refine ⟨by omega, fun m hmle => ?_⟩
          rw [hmv m (by omega)]
          simp only [hs, if_neg c1, if_pos c2]
        · rw [if_neg c2] at h; simp at h

/-- Whatever is parsed with some budget consumes input and is parsed, with the same result, with
every budget that covers the bytes consumed. -/
theorem parse_fuel_adequate (n : Nat) :
    (∀ d inp v rest, parseValue n d inp = some (v, rest) →
      rest.length < inp.length ∧
        ∀ m, inp.length - rest.length ≤ m → parseValue m d inp = some (v, rest)) ∧
    (∀ d inp ms rest, parseMembers n d inp = some (ms, rest) →
      rest.length < inp.length ∧
        ∀ m, inp.length - rest.length ≤ m → parseMembers m d inp = some (ms, rest)) ∧
    (∀ d inp xs rest, parseElements n d inp = some (xs, rest) →
      rest.length < inp.length ∧
        ∀ m, inp.length - rest.length ≤ m → parseElements m d inp = some (xs, rest)) := by
  induction n with
  | zero =>
    refine ⟨?_, ?_, ?_⟩
    · intro d inp v rest h; simp [parseValue] at h
    · intro d inp ms rest h; simp [parseMembers] at h
    · intro d inp xs rest h; simp [parseElements] at h
  | succ n ih =>
    obtain ⟨ihV, ihM, ihE⟩ := ih
    refine ⟨?_, ?_, ?_⟩
    · intro d inp v rest h
      obtain ⟨hl, hm⟩ := parseValue_fuel_step n ihM ihE d inp v rest h
      refine ⟨hl, fun m hmle => ?_⟩
      obtain ⟨m2, rfl⟩ : ∃ m2, m = m2 + 1 := ⟨m - 1, by omega⟩
      exact hm m2 hmle
    · intro d inp ms rest h
      obtain ⟨hl, hm⟩ := parseMembers_fuel_step n ihV ihM d inp ms rest h
      refine ⟨hl, fun m hmle => ?_⟩
      obtain ⟨m2, rfl⟩ : ∃ m2, m = m2 + 1 := ⟨m - 1, by omega⟩
      exact hm m2 hmle
    · intro d inp xs rest h
      obtain ⟨hl, hm⟩ := parseElements_fuel_step n ihV ihE d inp xs rest h
      refine ⟨hl, fun m hmle => ?_⟩
      obtain ⟨m2, rfl⟩ : ∃ m2, m = m2 + 1 := ⟨m - 1, by omega⟩
      exact hm m2 hmle

/-- The recursion budget `parseJSON` gives the scanner is enough: a value that
can be parsed with some budget is parsed, with the same result, with the budget
of the input length plus one. A body `parseJSON` rejects is therefore rejected
with every budget. -/
theorem parseValue_budget_enough (n d : Nat) (data : List Nat) (v : JSON) (rest : List Nat)
    (h : parseValue n d data = some (v, rest)) :
    parseValue (data.length + 1) d data = some (v, rest) :=
  ((parse_fuel_adequate n).1 d data v rest h).2 (data.length + 1) (by omega)

/-! ## Lemmas on the builders -/

/-- After a chain of setter calls each field holds the last value passed to its setter. -/
theorem listDeposits_calls_fields (cs : List ListDepositsCall) :
    (NewListDepositsService.calls cs).asset = lastAsset cs ∧
    (NewListDepositsService.calls cs).status = lastStatus cs ∧
    (NewListDepositsService.calls cs).startTime = lastStartTime cs ∧
    (NewListDepositsService.calls cs).endTime = lastEndTime cs := by
  induction cs using List.reverseRecOn with
  | nil => simp [ListDepositsService.calls, NewListDepositsService, lastAsset, lastStatus,
      lastStartTime, lastEndTime]
  | append_singleton cs c ih =>
    obtain ⟨h1, h2, h3, h4⟩ := ih
    simp only [ListDepositsService.calls] at h1 h2 h3 h4
    cases c <;>
      simp [ListDepositsService.calls, List.foldl_append, ListDepositsService.call,
        ListDepositsService.Asset, ListDepositsService.Status, ListDepositsService.StartTime,
        ListDepositsService.EndTime, lastAsset, lastStatus, lastStartTime, lastEndTime,
        List.filterMap_append, h1, h2, h3, h4]

/-- After a chain of setter calls `coin` holds the last value passed to `Coin` (empty when none)
and `network` the last value passed to `Network`. -/
theorem address_calls_fields (cs : List AddressCall) :
    (NewGetDepositsAddressService.calls cs).coin = (lastCoin cs).getD "" ∧
    (NewGetDepositsAddressService.calls cs).network = lastNetwork cs := by
  induction cs using List.reverseRecOn with
  | nil => simp [GetDepositsAddressService.calls, NewGetDepositsAddressService, lastCoin,
      lastNetwork]
  | append_singleton cs c ih =>
    obtain ⟨h1, h2⟩ := ih
    simp only [GetDepositsAddressService.calls] at h1 h2
    cases c <;>
      simp [GetDepositsAddressService.calls, List.foldl_append, GetDepositsAddressService.call,
        GetDepositsAddressService.Coin, GetDepositsAddressService.Network, lastCoin, lastNetwork,
        List.filterMap_append, h1, h2]

/-- The parameter set `Do` builds, written out: one entry per field that is set, in the order
of the source. -/
theorem listDeposits_buildRequest_params (s : ListDepositsService) :
    s.buildRequest.params =
      (s.asset.map (fun v => ("asset", ParamValue.str v))).toList ++
      (s.status.map (fun v => ("status", ParamValue.int v))).toList ++
      (s.startTime.map (fun v => ("startTime", ParamValue.int v))).toList ++
      (s.endTime.map (fun v => ("endTime", ParamValue.int v))).toList := by
  obtain ⟨a, st, t1, t2⟩ := s
  cases a <;> cases st <;> cases t1 <;> cases t2 <;>
    simp [ListDepositsService.buildRequest, request.setParam, setKey]

/-- Method, endpoint and security classification of the deposit history request. -/
theorem listDeposits_buildRequest_head (s : ListDepositsService) :
    s.buildRequest.method = "GET" ∧ s.buildRequest.endpoint = "/wapi/v3/depositHistory.html" ∧
    s.buildRequest.secType = secType.secTypeSigned := by
  obtain ⟨a, st, t1, t2⟩ := s
  cases a <;> cases st <;> cases t1 <;> cases t2 <;>
    simp [ListDepositsService.buildRequest, request.setParam]

/-- The parameter set `Do` builds, written out: `coin` always, `network` when set. -/
theorem address_buildRequest_params (s : GetDepositsAddressService) :
    s.buildRequest.params =
      ("coin", ParamValue.str s.coin) :: (s.network.map (fun v => ("network", ParamValue.str v))).toList := by
  obtain ⟨co, n⟩ := s
  cases n <;> simp [GetDepositsAddressService.buildRequest, request.setParam, setKey]

/-- Method, endpoint and security classification of the deposit address request. -/
theorem address_buildRequest_head (s : GetDepositsAddressService) :
    s.buildRequest.method = "GET" ∧ s.buildRequest.endpoint = "/sapi/v1/capital/deposit/address" ∧
    s.buildRequest.secType = secType.secTypeSigned := by
  obtain ⟨co, n⟩ := s
  cases n <;> simp [GetDepositsAddressService.buildRequest, request.setParam]

/-- The method `Do` hands exactly one request to `callAPI`. -/
theorem listDeposits_Do_client (s : ListDepositsService) (c : Client) :
    (s.Do c).client = ⟨c.respond, c.dispatched ++ [s.buildRequest]⟩ := by
  unfold ListDepositsService.Do
  simp only [Client.callAPI]
  split
  · rfl
  · split <;> rfl

/-- The method `Do` hands exactly one request to `callAPI`. -/
theorem address_Do_client (s : GetDepositsAddressService) (c : Client) :
    (s.Do c).client = ⟨c.respond, c.dispatched ++ [s.buildRequest]⟩ := by
  unfold GetDepositsAddressService.Do
  simp only [Client.callAPI]
  split
  · rfl
  · split <;> rfl

/-- The method `Do` leaves the deposit history builder as it was. -/
theorem listDeposits_Do_builder (s : ListDepositsService) (c : Client) :
    (s.Do c).builder = s := by
  unfold ListDepositsService.Do
  simp only
  split
  · rfl
  · split <;> rfl

/-- The method `Do` leaves the deposit address builder as it was. -/
theorem address_Do_builder (s : GetDepositsAddressService) (c : Client) :
    (s.Do c).builder = s := by
  unfold GetDepositsAddressService.Do
  simp only
  split
  · rfl
  · split <;> rfl

/-- An error of `callAPI` is returned as it is, with nil deposits. -/
theorem listDeposits_Do_error (s : ListDepositsService) (c : Client) (e : Error)
    (h : c.respond c.dispatched s.buildRequest = .error e) :
    (s.Do c).value = none ∧ (s.Do c).err = some e := by
  simp [ListDepositsService.Do, Client.callAPI, h]

/-- An error of `callAPI` is returned as it is, with a nil response. -/
theorem address_Do_error (s : GetDepositsAddressService) (c : Client) (e : Error)
    (h : c.respond c.dispatched s.buildRequest = .error e) :
    (s.Do c).value = none ∧ (s.Do c).err = some e := by
  simp [GetDepositsAddressService.Do, Client.callAPI, h]

/-- On a body returned without error, `Do` returns the error of `json.Unmarshal`, and the decoded
`depositList` exactly when there is none. -/
theorem listDeposits_Do_ok (s : ListDepositsService) (c : Client) (data : List Nat)
    (h : c.respond c.dispatched s.buildRequest = .ok data) :
    (s.Do c).err = (unmarshalStruct DepositHistoryField.all DepositHistoryField.jsonName
        DepositHistoryResponse.store data ⟨false, none⟩).2 ∧
    (s.Do c).value =
      match (unmarshalStruct DepositHistoryField.all DepositHistoryField.jsonName
        DepositHistoryResponse.store data ⟨false, none⟩).2 with
      | some _ => none
      | none => (unmarshalStruct DepositHistoryField.all DepositHistoryField.jsonName
        DepositHistoryResponse.store data ⟨false, none⟩).1.Deposits := by
  unfold ListDepositsService.Do
  simp only [Client.callAPI, h]
  generalize unmarshalStruct DepositHistoryField.all DepositHistoryField.jsonName
        DepositHistoryResponse.store data ⟨false, none⟩ = u
  obtain ⟨res, err⟩ := u
  cases err <;> exact ⟨rfl, rfl⟩

/-- On a body returned without error, `Do` returns the error of `json.Unmarshal`, and the decoded
response exactly when there is none. -/
theorem address_Do_ok (s : GetDepositsAddressService) (c : Client)
    (data : List Nat) (h : c.respond c.dispatched s.buildRequest = .ok data) :
    (s.Do c).err = (unmarshalStruct AddressField.all AddressField.jsonName
        GetDepositAddressResponse.store data ⟨[], [], [], []⟩).2 ∧
    (s.Do c).value =
      match (unmarshalStruct AddressField.all AddressField.jsonName
        GetDepositAddressResponse.store data ⟨[], [], [], []⟩).2 with
      | some _ => none
      | none => some (unmarshalStruct AddressField.all AddressField.jsonName
        GetDepositAddressResponse.store data ⟨[], [], [], []⟩).1 := by
  unfold GetDepositsAddressService.Do
  simp only [Client.callAPI, h]
  generalize unmarshalStruct AddressField.all AddressField.jsonName
        GetDepositAddressResponse.store data ⟨[], [], [], []⟩ = u
  obtain ⟨res, err⟩ := u
  cases err <;> exact ⟨rfl, rfl⟩

/-! ## Lookups in the built requests -/

/-- Lookups in the parameter set of the deposit history request. -/
theorem listDeposits_lookup_params (s : ListDepositsService) :
    s.buildRequest.params.lookup "asset" = s.asset.map ParamValue.str ∧
    s.buildRequest.params.lookup "status" = s.status.map ParamValue.int ∧
    s.buildRequest.params.lookup "startTime" = s.startTime.map ParamValue.int ∧
    s.buildRequest.params.lookup "endTime" = s.endTime.map ParamValue.int ∧
    (∀ k : String, k ∉ ["asset", "status", "startTime", "endTime"] →
      s.buildRequest.params.lookup k = none) ∧
    (s.buildRequest.params.map Prod.fst).Nodup := by
  rw [listDeposits_buildRequest_params]
  obtain ⟨a, st, t1, t2⟩ := s
  refine ⟨?_, ?_, ?_, ?_, ?_, ?_⟩
  · cases a <;> cases st <;> cases t1 <;> cases t2 <;> simp [List.lookup]
  · cases a <;> cases st <;> cases t1 <;> cases t2 <;> simp [List.lookup]
  · cases a <;> cases st <;> cases t1 <;> cases t2 <;> simp [List.lookup]
  · cases a <;> cases st <;> cases t1 <;> cases t2 <;> simp [List.lookup]
  · intro k hk
    simp only [List.mem_cons, List.mem_singleton, not_or, List.not_mem_nil, or_false] at hk
    obtain ⟨h1, h2, h3, h4⟩ := hk
    have b1 : (k == "asset") = false := beq_eq_false_iff_ne.mpr h1
    have b2 : (k == "status") = false := beq_eq_false_iff_ne.mpr h2
    have b3 : (k == "startTime") = false := beq_eq_false_iff_ne.mpr h3
    have b4 : (k == "endTime") = false := beq_eq_false_iff_ne.mpr h4
    cases a <;> cases st <;> cases t1 <;> cases t2 <;> simp [List.lookup, b1, b2, b3, b4]
  · cases a <;> cases st <;> cases t1 <;> cases t2 <;> simp

/-- Lookups in the parameter set of the deposit address request. -/
theorem address_lookup_params (s : GetDepositsAddressService) :
    s.buildRequest.params.lookup "coin" = some (ParamValue.str s.coin) ∧
    s.buildRequest.params.lookup "network" = s.network.map ParamValue.str ∧
    (∀ k : String, k ∉ ["coin", "network"] → s.buildRequest.params.lookup k = none) ∧
    (s.buildRequest.params.map Prod.fst).Nodup := by
  rw [address_buildRequest_params]
  obtain ⟨co, n⟩ := s
  refine ⟨?_, ?_, ?_, ?_⟩
  · cases n <;> simp [List.lookup]
  · cases n <;> simp [List.lookup]
  · intro k hk
    simp only [List.mem_cons, List.mem_singleton, not_or, List.not_mem_nil, or_false] at hk
    obtain ⟨h1, h2⟩ := hk
    have b1 : (k == "coin") = false := beq_eq_false_iff_ne.mpr h1
    have b2 : (k == "network") = false := beq_eq_false_iff_ne.mpr h2
    cases n <;> simp [List.lookup, b1, b2]
  · cases n <;> simp

/-! ## The claims on request construction -/

/-- C2: for every chain of setter calls on a fresh `ListDepositsService`, `Do`
hands exactly one request to `callAPI`, and its parameter set holds `asset`,
`status`, `startTime`, `endTime` exactly when the setter was called, each with
the last value passed, holds no other key and no key twice; a chain ending in
`Status(0)` carries `status=0`, and its request differs from that of the chain
without any `Status` call. -/
theorem C2_listDeposits_params (cs : List ListDepositsCall) (c : Client) :
    ((NewListDepositsService.calls cs).Do c).client.dispatched =
      c.dispatched ++ [(NewListDepositsService.calls cs).buildRequest] ∧
    (NewListDepositsService.calls cs).buildRequest.params.lookup "asset" =
      (lastAsset cs).map ParamValue.str ∧
    (NewListDepositsService.calls cs).buildRequest.params.lookup "status" =
      (lastStatus cs).map ParamValue.int ∧
    (NewListDepositsService.calls cs).buildRequest.params.lookup "startTime" =
      (lastStartTime cs).map ParamValue.int ∧
    (NewListDepositsService.calls cs).buildRequest.params.lookup "endTime" =
      (lastEndTime cs).map ParamValue.int ∧
    (∀ k : String, k ∉ ["asset", "status", "startTime", "endTime"] →
      (NewListDepositsService.calls cs).buildRequest.params.lookup k = none) ∧
    ((NewListDepositsService.calls cs).buildRequest.params.map Prod.fst).Nodup ∧
    (NewListDepositsService.calls (cs ++ [ListDepositsCall.Status 0])).buildRequest.params.lookup
      "status" = some (ParamValue.int 0) ∧
    (lastStatus cs = none →
      (NewListDepositsService.calls (cs ++ [ListDepositsCall.Status 0])).buildRequest ≠
        (NewListDepositsService.calls cs).buildRequest) := by
  have hf := listDeposits_calls_fields cs
  have hl := listDeposits_lookup_params (NewListDepositsService.calls cs)
  have h0 : (NewListDepositsService.calls (cs ++ [ListDepositsCall.Status 0])).buildRequest.params.lookup
      "status" = some (ParamValue.int 0) := by
    rw [(listDeposits_lookup_params _).2.1,
      (listDeposits_calls_fields (cs ++ [ListDepositsCall.Status 0])).2.1]
    simp [lastStatus, List.filterMap_append]
  refine ⟨?_, ?_, ?_, ?_, ?_, hl.2.2.2.2.1, hl.2.2.2.2.2, h0, ?_⟩
  · rw [listDeposits_Do_client]
  · rw [hl.1, hf.1]
  · rw [hl.2.1, hf.2.1]
  · rw [hl.2.2.1, hf.2.2.1]
  · rw [hl.2.2.2.1, hf.2.2.2]
  · intro hn heq
    rw [heq, hl.2.1, hf.2.1, hn] at h0
    simp at h0

/-- C2, at a concrete chain: `Asset("ETH")`, `Status(1)`, `Status(0)`: the
request carries `status=0` and no `coin`, and `Status(0)` alone already changes
the request of a fresh builder. -/
theorem C2_listDeposits_params_witness :
    (NewListDepositsService.calls
        [ListDepositsCall.Asset "ETH", ListDepositsCall.Status 1,
          ListDepositsCall.Status 0]).buildRequest.params.lookup "coin" = none ∧
    (NewListDepositsService.calls ([] ++ [ListDepositsCall.Status 0])).buildRequest ≠
      (NewListDepositsService.calls []).buildRequest :=
  ⟨(C2_listDeposits_params
      [ListDepositsCall.Asset "ETH", ListDepositsCall.Status 1, ListDepositsCall.Status 0]
      (clientFailing Error.CancelledError)).2.2.2.2.2.1 "coin" (by decide),
    (C2_listDeposits_params [] (clientFailing Error.CancelledError)).2.2.2.2.2.2.2.2 rfl⟩

/-- C10: whatever the builder holds, `ListDepositsService.Do` builds a signed
GET to `/wapi/v3/depositHistory.html` and `GetDepositsAddressService.Do` a
signed GET to `/sapi/v1/capital/deposit/address`. `Do` leaves the builder it
was called on with all its fields unchanged, so a second `Do` on the builder
as the first call left it, with the client as the first call left it, hands
`callAPI` a descriptor equal to the first, and leaves the builder unchanged
again. -/
theorem C10_descriptor_frame (sl : ListDepositsService) (sa : GetDepositsAddressService)
    (c : Client) :
    (sl.buildRequest.method = "GET" ∧
      sl.buildRequest.endpoint = "/wapi/v3/depositHistory.html" ∧
      sl.buildRequest.secType = secType.secTypeSigned) ∧
    (sa.buildRequest.method = "GET" ∧
      sa.buildRequest.endpoint = "/sapi/v1/capital/deposit/address" ∧
      sa.buildRequest.secType = secType.secTypeSigned) ∧
    ((sl.Do c).builder = sl ∧
      (sl.Do c).client.dispatched = c.dispatched ++ [sl.buildRequest] ∧
      ((sl.Do c).builder.Do (sl.Do c).client).client.dispatched =
        c.dispatched ++ [sl.buildRequest, sl.buildRequest] ∧
      ((sl.Do c).builder.Do (sl.Do c).client).builder = sl) ∧
    ((sa.Do c).builder = sa ∧
      (sa.Do c).client.dispatched = c.dispatched ++ [sa.buildRequest] ∧
      ((sa.Do c).builder.Do (sa.Do c).client).client.dispatched =
        c.dispatched ++ [sa.buildRequest, sa.buildRequest] ∧
      ((sa.Do c).builder.Do (sa.Do c).client).builder = sa) := by
  refine ⟨listDeposits_buildRequest_head sl, address_buildRequest_head sa,
    ⟨listDeposits_Do_builder sl c, ?_, ?_, ?_⟩, ⟨address_Do_builder sa c, ?_, ?_, ?_⟩⟩
  · rw [listDeposits_Do_client]
  · rw [listDeposits_Do_builder sl c, listDeposits_Do_client, listDeposits_Do_client]; simp
  · rw [listDeposits_Do_builder sl c, listDeposits_Do_builder]
  · rw [address_Do_client]
  · rw [address_Do_builder sa c, address_Do_client, address_Do_client]; simp
  · rw [address_Do_builder sa c, address_Do_builder]

/-- C10, at concrete builders: after `Do` on a builder with asset, status and
both times set, the builder still holds those four values, and a second `Do`
on it dispatches the same descriptor again; likewise an address builder with
coin and network keeps both. -/
theorem C10_descriptor_frame_witness :
    (sampleDepositsBuilder.Do (clientAnswering "\x7b\"depositList\":[]\x7d")).builder =
      ⟨some "ETH", some 0, some 1508198532000, some 1508198532001⟩ ∧
    ((sampleDepositsBuilder.Do (clientAnswering "\x7b\"depositList\":[]\x7d")).builder.Do
      (sampleDepositsBuilder.Do (clientAnswering "\x7b\"depositList\":[]\x7d")).client).client.dispatched =
      [⟨"GET", "/wapi/v3/depositHistory.html", secType.secTypeSigned,
          [("asset", ParamValue.str "ETH"), ("status", ParamValue.int 0),
            ("startTime", ParamValue.int 1508198532000),
            ("endTime", ParamValue.int 1508198532001)]⟩,
        ⟨"GET", "/wapi/v3/depositHistory.html", secType.secTypeSigned,
          [("asset", ParamValue.str "ETH"), ("status", ParamValue.int 0),
            ("startTime", ParamValue.int 1508198532000),
            ("endTime", ParamValue.int 1508198532001)]⟩] ∧
    (sampleAddressBuilder.Do (clientFailing Error.CancelledError)).builder =
      ⟨"BTC", some "BNB"⟩ :=
  ⟨(C10_descriptor_frame sampleDepositsBuilder sampleAddressBuilder
      (clientAnswering "\x7b\"depositList\":[]\x7d")).2.2.1.1.trans (by rfl),
    (C10_descriptor_frame sampleDepositsBuilder sampleAddressBuilder
      (clientAnswering "\x7b\"depositList\":[]\x7d")).2.2.1.2.2.1.trans (by rfl),
    (C10_descriptor_frame sampleDepositsBuilder sampleAddressBuilder
      (clientFailing Error.CancelledError)).2.2.2.1.trans (by rfl)⟩

/-- C7: when `callAPI` returns an error `e`, `ListDepositsService.Do` and
`GetDepositsAddressService.Do` both return exactly `e` together with a nil
result. -/
theorem C7_callAPI_error_returned (sl : ListDepositsService) (sa : GetDepositsAddressService)
    (c : Client) (e : Error) :
    ((c.callAPI sl.buildRequest).1 = Except.error e →
      (sl.Do c).err = some e ∧ (sl.Do c).value = none) ∧
    ((c.callAPI sa.buildRequest).1 = Except.error e →
      (sa.Do c).err = some e ∧ (sa.Do c).value = none) := by
  constructor
  · intro h
    exact ⟨(listDeposits_Do_error sl c e h).2, (listDeposits_Do_error sl c e h).1⟩
  · intro h
    exact ⟨(address_Do_error sa c e h).2, (address_Do_error sa c e h).1⟩

/-- C7, at a concrete input: a client whose `callAPI` fails with a transport
error, a builder with a start time and an address builder for BTC. -/
theorem C7_callAPI_error_returned_witness :
    ((NewListDepositsService.StartTime 1508198532000).Do
        (clientFailing (Error.TransportError "timeout"))).err =
      some (Error.TransportError "timeout") ∧
    ((NewListDepositsService.StartTime 1508198532000).Do
        (clientFailing (Error.TransportError "timeout"))).value = none ∧
    ((NewGetDepositsAddressService.Coin "BTC").Do
        (clientFailing (Error.TransportError "timeout"))).err =
      some (Error.TransportError "timeout") ∧
    ((NewGetDepositsAddressService.Coin "BTC").Do
        (clientFailing (Error.TransportError "timeout"))).value = none :=
  ⟨((C7_callAPI_error_returned (NewListDepositsService.StartTime 1508198532000)
      (NewGetDepositsAddressService.Coin "BTC") (clientFailing (Error.TransportError "timeout"))
      (Error.TransportError "timeout")).1 rfl).1,
   ((C7_callAPI_error_returned (NewListDepositsService.StartTime 1508198532000)
      (NewGetDepositsAddressService.Coin "BTC") (clientFailing (Error.TransportError "timeout"))
      (Error.TransportError "timeout")).1 rfl).2,
   ((C7_callAPI_error_returned (NewListDepositsService.StartTime 1508198532000)
      (NewGetDepositsAddressService.Coin "BTC") (clientFailing (Error.TransportError "timeout"))
      (Error.TransportError "timeout")).2 rfl).1,
   ((C7_callAPI_error_returned (NewListDepositsService.StartTime 1508198532000)
      (NewGetDepositsAddressService.Coin "BTC") (clientFailing (Error.TransportError "timeout"))
      (Error.TransportError "timeout")).2 rfl).2⟩

/-- C3, refuted as stated: on a builder on which `Coin` was never called, `Do`
still sends a `coin` parameter, with the empty string as its value. -/
theorem C3_counterexample :
    lastCoin [] = none ∧
    (NewGetDepositsAddressService.Do (clientFailing Error.CancelledError)).client.dispatched =
      [⟨"GET", "/sapi/v1/capital/deposit/address", secType.secTypeSigned,
        [("coin", ParamValue.str "")]⟩] ∧
    (NewGetDepositsAddressService.calls []).buildRequest.params.lookup "coin" =
      some (ParamValue.str "") := by
  refine ⟨rfl, ?_, ?_⟩
  · rw [address_Do_client]; rfl
  · rfl

/-- C3, amended: for every chain of setter calls on a fresh
`GetDepositsAddressService`, the request `Do` hands to `callAPI` holds
`network` exactly when `Network` was called (with the last value passed),
always holds `coin` (with the last value passed to `Coin`, the empty string
when `Coin` was never called), holds no other key and no key twice. -/
theorem C3_address_params (cs : List AddressCall) (c : Client) :
    ((NewGetDepositsAddressService.calls cs).Do c).client.dispatched =
      c.dispatched ++ [(NewGetDepositsAddressService.calls cs).buildRequest] ∧
    (NewGetDepositsAddressService.calls cs).buildRequest.params.lookup "network" =
      (lastNetwork cs).map ParamValue.str ∧
    (NewGetDepositsAddressService.calls cs).buildRequest.params.lookup "coin" =
      some (ParamValue.str ((lastCoin cs).getD "")) ∧
    (∀ k : String, k ∉ ["coin", "network"] →
      (NewGetDepositsAddressService.calls cs).buildRequest.params.lookup k = none) ∧
    ((NewGetDepositsAddressService.calls cs).buildRequest.params.map Prod.fst).Nodup := by
  have hf := address_calls_fields cs
  have hl := address_lookup_params (NewGetDepositsAddressService.calls cs)
  refine ⟨?_, ?_, ?_, hl.2.2.1, hl.2.2.2⟩
  · rw [address_Do_client]
  · rw [hl.2.1, hf.2]
  · rw [hl.1, hf.1]

/-- C3 amended, at a concrete chain: `Network("ETH")` alone sends no `asset`
key. -/
theorem C3_address_params_witness :
    (NewGetDepositsAddressService.calls [AddressCall.Network "ETH"]).buildRequest.params.lookup
      "asset" = none :=
  (C3_address_params [AddressCall.Network "ETH"] (clientFailing Error.CancelledError)).2.2.2.1
    "asset" (by decide)

/-- C1, refuted as stated: with `StartTime` called and `EndTime` never called,
`Do` does not fail before `callAPI`: the request, carrying `startTime` alone,
is dispatched, and on a well-formed reply `Do` returns with a nil error. -/
theorem C1_counterexample :
    (NewListDepositsService.StartTime 1508198532000).startTime ≠ none ∧
    (NewListDepositsService.StartTime 1508198532000).endTime = none ∧
    ¬ ((∃ m, ((NewListDepositsService.StartTime 1508198532000).Do
          (clientAnswering "\x7b\"success\":true,\"depositList\":[]\x7d")).err =
            some (Error.ConfigurationError m)) ∧
        ((NewListDepositsService.StartTime 1508198532000).Do
          (clientAnswering "\x7b\"success\":true,\"depositList\":[]\x7d")).client.dispatched = []) ∧
    ((NewListDepositsService.StartTime 1508198532000).Do
      (clientAnswering "\x7b\"success\":true,\"depositList\":[]\x7d")).err = none ∧
    ((NewListDepositsService.StartTime 1508198532000).Do
      (clientAnswering "\x7b\"success\":true,\"depositList\":[]\x7d")).value = some [] ∧
    ((NewListDepositsService.StartTime 1508198532000).Do
      (clientAnswering "\x7b\"success\":true,\"depositList\":[]\x7d")).client.dispatched =
      [⟨"GET", "/wapi/v3/depositHistory.html", secType.secTypeSigned,
        [("startTime", ParamValue.int 1508198532000)]⟩] := by
  have herr : ((NewListDepositsService.StartTime 1508198532000).Do
      (clientAnswering "\x7b\"success\":true,\"depositList\":[]\x7d")).err = none := by decide
  have hd : ((NewListDepositsService.StartTime 1508198532000).Do
      (clientAnswering "\x7b\"success\":true,\"depositList\":[]\x7d")).client.dispatched =
      [⟨"GET", "/wapi/v3/depositHistory.html", secType.secTypeSigned,
        [("startTime", ParamValue.int 1508198532000)]⟩] := by
    rw [listDeposits_Do_client]; rfl
  refine ⟨by decide, rfl, ?_, herr, by decide, hd⟩
  rintro ⟨⟨m, hm⟩, -⟩
  rw [herr] at hm
  exact Option.noConfusion hm

/-- C1, amended: on a builder with exactly one of `startTime` and `endTime`
set, `Do` makes no pairing check: it hands one request to `callAPI`, carrying
the one time parameter that was set and not the other, returns an error of
`callAPI` as it is, and otherwise fails exactly when `json.Unmarshal` of the
body fails. -/
theorem C1_no_pairing_check (s : ListDepositsService) (c : Client)
    (h : (s.startTime ≠ none ∧ s.endTime = none) ∨ (s.startTime = none ∧ s.endTime ≠ none)) :
    (s.Do c).client.dispatched = c.dispatched ++ [s.buildRequest] ∧
    (((s.buildRequest.params.lookup "startTime").isSome = true ∧
        s.buildRequest.params.lookup "endTime" = none) ∨
      (s.buildRequest.params.lookup "startTime" = none ∧
        (s.buildRequest.params.lookup "endTime").isSome = true)) ∧
    s.buildRequest.params.lookup "startTime" = s.startTime.map ParamValue.int ∧
    s.buildRequest.params.lookup "endTime" = s.endTime.map ParamValue.int ∧
    (∀ e, (c.callAPI s.buildRequest).1 = Except.error e →
      (s.Do c).err = some e ∧ (s.Do c).value = none) ∧
    (∀ data, (c.callAPI s.buildRequest).1 = Except.ok data →
      (s.Do c).err = (unmarshalStruct DepositHistoryField.all DepositHistoryField.jsonName
        DepositHistoryResponse.store data ⟨false, none⟩).2) := by
  have hl := listDeposits_lookup_params s
  refine ⟨?_, ?_, hl.2.2.1, hl.2.2.2.1, ?_, ?_⟩
  · rw [listDeposits_Do_client]
  · rw [hl.2.2.1, hl.2.2.2.1]
    rcases h with ⟨h1, h2⟩ | ⟨h1, h2⟩
    · left
      refine ⟨?_, by rw [h2]; rfl⟩
      cases hs : s.startTime with
      | none => exact absurd hs h1
      | some v => rfl
    · right
      refine ⟨by rw [h1]; rfl, ?_⟩
      cases hs : s.endTime with
      | none => exact absurd hs h2
      | some v => rfl
  · intro e he
    exact ⟨(listDeposits_Do_error s c e he).2, (listDeposits_Do_error s c e he).1⟩
  · intro data hd
    exact (listDeposits_Do_ok s c data hd).1

/-- C1 amended, at a concrete input: `EndTime` alone, against an exchange that
answers with an empty deposit list: the request is dispatched and `Do` returns
no error. -/
theorem C1_no_pairing_check_witness :
    ((NewListDepositsService.EndTime 1508198532001).Do
      (clientAnswering "\x7b\"depositList\":[]\x7d")).client.dispatched =
      (clientAnswering "\x7b\"depositList\":[]\x7d").dispatched ++
        [(NewListDepositsService.EndTime 1508198532001).buildRequest] ∧
    ((NewListDepositsService.EndTime 1508198532001).Do
      (clientAnswering "\x7b\"depositList\":[]\x7d")).err = none :=
  ⟨(C1_no_pairing_check (NewListDepositsService.EndTime 1508198532001)
      (clientAnswering "\x7b\"depositList\":[]\x7d") (Or.inr ⟨rfl, by decide⟩)).1,
    ((C1_no_pairing_check (NewListDepositsService.EndTime 1508198532001)
      (clientAnswering "\x7b\"depositList\":[]\x7d") (Or.inr ⟨rfl, by decide⟩)).2.2.2.2.2
        (bytesOf "\x7b\"depositList\":[]\x7d") rfl).trans (by decide)⟩

/-! ## Lemmas on `decodeMembers` -/

/-- A saved error is never replaced. -/
theorem saveError_some (e : Error) (x : Option Error) : saveError (some e) x = some e := rfl

/-- Saving no error changes nothing. -/
theorem saveError_none_right (x : Option Error) : saveError x none = x := by
  cases x <;> rfl

/-- A saved error stays. -/
theorem saveError_ne_none_left {x : Option Error} (y : Option Error) (h : x ≠ none) :
    saveError x y ≠ none := by
  cases x with
  | none => exact absurd rfl h
  | some e => simp [saveError]

/-- Saving an error leaves an error. -/
theorem saveError_ne_none_right (x : Option Error) {y : Option Error} (h : y ≠ none) :
    saveError x y ≠ none := by
  cases x with
  | none => simpa [saveError] using h
  | some e => simp [saveError]

/-- An error saved before the members are decoded is still there afterwards. -/
theorem decodeMembers_err_kept {S F : Type} (all : List F) (name : F → List Nat)
    (store : S → F → JSON → S × Option Error) (ms : List (List Nat × JSON)) :
    ∀ (s : S) (err : Option Error), err ≠ none →
      (decodeMembers all name store ms s err).2 ≠ none := by
  induction ms with
  | nil => intro s err h; simpa [decodeMembers] using h
  | cons m ms ih =>
    intro s err h
    obtain ⟨k, v⟩ := m
    unfold decodeMembers
    split
    · exact ih s err h
    · exact ih _ _ (saveError_ne_none_left _ h)

/-- A member whose value its field rejects makes decoding the object fail. -/
theorem decodeMembers_err_of_member {S F : Type} (all : List F) (name : F → List Nat)
    (store : S → F → JSON → S × Option Error) (ms : List (List Nat × JSON))
    (k : List Nat) (v : JSON) (f : F) (hmem : (k, v) ∈ ms) (hf : lookupField all name k = some f)
    (hbad : ∀ s, (store s f v).2 ≠ none) :
    ∀ (s : S) (err : Option Error), (decodeMembers all name store ms s err).2 ≠ none := by
  induction ms with
  | nil => simp at hmem
  | cons m ms ih =>
    intro s err
    obtain ⟨k2, v2⟩ := m
    rcases List.mem_cons.mp hmem with heq | htail
    · obtain ⟨rfl, rfl⟩ := Prod.mk.inj heq
      unfold decodeMembers
      simp only [hf]
      exact decodeMembers_err_kept all name store ms _ _ (saveError_ne_none_right _ (hbad s))
    · unfold decodeMembers
      split
      · exact ih htail s err
      · exact ih htail _ _

/-- When every member that addresses a field is accepted, decoding adds no error. -/
theorem decodeMembers_no_err {S F : Type} (all : List F) (name : F → List Nat)
    (store : S → F → JSON → S × Option Error) (ms : List (List Nat × JSON))
    (hok : ∀ m ∈ ms, ∀ f, lookupField all name m.1 = some f → ∀ s, (store s f m.2).2 = none) :
    ∀ (s : S) (err : Option Error), (decodeMembers all name store ms s err).2 = err := by
  induction ms with
  | nil => intro s err; rfl
  | cons m ms ih =>
    intro s err
    obtain ⟨k, v⟩ := m
    have ih2 := ih (fun m hm => hok m (List.mem_cons_of_mem _ hm))
    unfold decodeMembers
    split
    · exact ih2 s err
    · rename_i f hf
      rw [ih2, hok (k, v) (List.mem_cons_self _ _) f hf s, saveError_none_right]

/-- A field no member addresses keeps its value. -/
theorem decodeMembers_get_untouched {S F α : Type} [DecidableEq F] (all : List F)
    (name : F → List Nat) (store : S → F → JSON → S × Option Error) (get : S → α) (f : F)
    (hother : ∀ s g v, g ≠ f → get (store s g v).1 = get s) (ms : List (List Nat × JSON))
    (hnone : membersFor all name f ms = []) :
    ∀ (s : S) (err : Option Error), get (decodeMembers all name store ms s err).1 = get s := by
  induction ms with
  | nil => intro s err; rfl
  | cons m ms ih =>
    intro s err
    obtain ⟨k, v⟩ := m
    simp only [membersFor, List.filter_cons] at hnone
    split at hnone
    · exact absurd hnone (List.cons_ne_nil _ _)
    · rename_i hk
      have hk2 : lookupField all name k ≠ some f := by simpa using hk
      unfold decodeMembers
      split
      · exact ih hnone s err
      · rename_i g hg
        have hgf : g ≠ f := by
          intro h; rw [h] at hg; exact hk2 hg
        rw [ih hnone, hother s g v hgf]

/-- A field addressed by exactly one member gets the value stored from that member. -/
theorem decodeMembers_get_unique {S F α : Type} [DecidableEq F] (all : List F)
    (name : F → List Nat) (store : S → F → JSON → S × Option Error) (get : S → α) (f : F)
    (hother : ∀ s g v, g ≠ f → get (store s g v).1 = get s) (ms : List (List Nat × JSON))
    (k : List Nat) (v : JSON) (x : α) (hx : ∀ s, get (store s f v).1 = x)
    (huniq : membersFor all name f ms = [(k, v)]) :
    ∀ (s : S) (err : Option Error), get (decodeMembers all name store ms s err).1 = x := by
  induction ms with
  | nil => simp [membersFor] at huniq
  | cons m ms ih =>
    intro s err
    obtain ⟨k2, v2⟩ := m
    simp only [membersFor, List.filter_cons] at huniq
    split at huniq
    · rename_i hk
      have hk2 : lookupField all name k2 = some f := by simpa using hk
      obtain ⟨hhead, htail⟩ := List.cons.inj huniq
      obtain ⟨rfl, rfl⟩ := Prod.mk.inj hhead
      unfold decodeMembers
      simp only [hk2]
      rw [decodeMembers_get_untouched all name store get f hother ms htail, hx]
    · rename_i hk
      have hk2 : lookupField all name k2 ≠ some f := by simpa using hk
      unfold decodeMembers
      split
      · exact ih huniq s err
      · exact ih huniq _ _

/-- A member that addresses a field is among the members for that field. -/
theorem mem_membersFor {F : Type} [DecidableEq F] (all : List F) (name : F → List Nat) (f : F)
    (ms : List (List Nat × JSON)) (m : List Nat × JSON) (hm : m ∈ ms)
    (hf : lookupField all name m.1 = some f) : m ∈ membersFor all name f ms := by
  simp [membersFor, List.mem_filter, hm, hf]

/-- Unmarshalling an object body decodes its members into the struct. -/
theorem unmarshalStruct_obj {S F : Type} (all : List F) (name : F → List Nat)
    (store : S → F → JSON → S × Option Error) (data : List Nat) (s : S)
    (ms : List (List Nat × JSON)) (h : parseJSON data = some (JSON.obj ms)) :
    unmarshalStruct all name store data s = decodeMembers all name store ms s none := by
  simp [unmarshalStruct, h]

/-- Unmarshalling a body that is not valid JSON is a syntax error and leaves the struct alone. -/
theorem unmarshalStruct_invalid {S F : Type} (all : List F) (name : F → List Nat)
    (store : S → F → JSON → S × Option Error) (data : List Nat) (s : S)
    (h : parseJSON data = none) :
    unmarshalStruct all name store data s = (s, some Error.SyntaxError) := by
  simp [unmarshalStruct, h]

/-! ## The claims on response decoding -/

/-- C5: when `callAPI` returns, without error, a body that is not valid JSON,
`ListDepositsService.Do` and `GetDepositsAddressService.Do` each return the
syntax error of `json.Unmarshal` together with a nil result; both are total
functions of the body. -/
theorem C5_invalid_json_rejected (sl : ListDepositsService) (sa : GetDepositsAddressService)
    (c : Client) (data : List Nat) (hbad : parseJSON data = none) :
    ((c.callAPI sl.buildRequest).1 = Except.ok data →
      (sl.Do c).err = some Error.SyntaxError ∧ (sl.Do c).value = none) ∧
    ((c.callAPI sa.buildRequest).1 = Except.ok data →
      (sa.Do c).err = some Error.SyntaxError ∧ (sa.Do c).value = none) := by
  constructor
  · intro h
    have hd := listDeposits_Do_ok sl c data h
    rw [unmarshalStruct_invalid _ _ _ _ _ hbad] at hd
    exact hd
  · intro h
    have hd := address_Do_ok sa c data h
    rw [unmarshalStruct_invalid _ _ _ _ _ hbad] at hd
    exact hd

/-- C5, at a concrete input: an HTML error page, a truncated object and a
well-formed object followed by another byte are not valid JSON; the services
return the syntax error and a nil result. -/
theorem C5_invalid_json_rejected_witness :
    parseJSON (bytesOf "<html>502 Bad Gateway</html>") = none ∧
    (NewListDepositsService.Do (clientAnswering "<html>502 Bad Gateway</html>")).err =
      some Error.SyntaxError ∧
    (NewListDepositsService.Do (clientAnswering "<html>502 Bad Gateway</html>")).value = none ∧
    ((NewGetDepositsAddressService.Coin "BTC").Do
      (clientAnswering "\x7b\"coin\":\"BTC\",\"address\":")).err = some Error.SyntaxError ∧
    ((NewGetDepositsAddressService.Coin "BTC").Do
      (clientAnswering "\x7b\"coin\":\"BTC\",\"address\":")).value = none ∧
    parseJSON (bytesOf "\x7b\"depositList\":[]\x7d x") = none ∧
    (NewListDepositsService.Do (clientAnswering "\x7b\"depositList\":[]\x7d x")).err =
      some Error.SyntaxError ∧
    (NewListDepositsService.Do (clientAnswering "\x7b\"depositList\":[]\x7d x")).value = none :=
  ⟨by rfl,
    ((C5_invalid_json_rejected NewListDepositsService NewGetDepositsAddressService
      (clientAnswering "<html>502 Bad Gateway</html>")
      (bytesOf "<html>502 Bad Gateway</html>") (by rfl)).1 rfl).1,
    ((C5_invalid_json_rejected NewListDepositsService NewGetDepositsAddressService
      (clientAnswering "<html>502 Bad Gateway</html>")
      (bytesOf "<html>502 Bad Gateway</html>") (by rfl)).1 rfl).2,
    ((C5_invalid_json_rejected NewListDepositsService (NewGetDepositsAddressService.Coin "BTC")
      (clientAnswering "\x7b\"coin\":\"BTC\",\"address\":")
      (bytesOf "\x7b\"coin\":\"BTC\",\"address\":") (by rfl)).2 rfl).1,
    ((C5_invalid_json_rejected NewListDepositsService (NewGetDepositsAddressService.Coin "BTC")
      (clientAnswering "\x7b\"coin\":\"BTC\",\"address\":")
      (bytesOf "\x7b\"coin\":\"BTC\",\"address\":") (by rfl)).2 rfl).2,
    by rfl,
    ((C5_invalid_json_rejected NewListDepositsService NewGetDepositsAddressService
      (clientAnswering "\x7b\"depositList\":[]\x7d x")
      (bytesOf "\x7b\"depositList\":[]\x7d x") (by rfl)).1 rfl).1,
    ((C5_invalid_json_rejected NewListDepositsService NewGetDepositsAddressService
      (clientAnswering "\x7b\"depositList\":[]\x7d x")
      (bytesOf "\x7b\"depositList\":[]\x7d x") (by rfl)).1 rfl).2⟩

/-- Storing into one field of the address response leaves the others as they
were. -/
theorem address_store_other (f g : AddressField) (hgf : g ≠ f) (r : GetDepositAddressResponse)
    (v : JSON) : (r.store g v).1.get f = r.get f := by
  cases g <;> cases f <;> first | exact absurd rfl hgf | rfl

/-- C6, refuted as stated: the body of the spec with one more member, `COIN`
or `Coin`, still is an object with string members `coin`, `address`, `tag` and
`url`. `json.Unmarshal` matches keys case-insensitively, so with `"COIN":1`
`Do` fails with a type error and a nil response, and with `"Coin":"ETH"` the
returned `Coin` is `ETH`, not the value `BTC` of the member `coin`. -/
theorem C6_counterexample :
    parseJSON (bytesOf
        "\x7b\"coin\":\"BTC\",\"address\":\"1A1z...\",\"tag\":\"\",\"url\":\"\",\"COIN\":1\x7d") =
      some (JSON.obj [(bytesOf "coin", JSON.str (bytesOf "BTC")),
        (bytesOf "address", JSON.str (bytesOf "1A1z...")), (bytesOf "tag", JSON.str []),
        (bytesOf "url", JSON.str []), (bytesOf "COIN", JSON.num ⟨false, 1, 0, 0, true⟩)]) ∧
    ((NewGetDepositsAddressService.Coin "BTC").Do (clientAnswering
      "\x7b\"coin\":\"BTC\",\"address\":\"1A1z...\",\"tag\":\"\",\"url\":\"\",\"COIN\":1\x7d")).err =
      some (Error.UnmarshalTypeError "number" "coin") ∧
    ((NewGetDepositsAddressService.Coin "BTC").Do (clientAnswering
      "\x7b\"coin\":\"BTC\",\"address\":\"1A1z...\",\"tag\":\"\",\"url\":\"\",\"COIN\":1\x7d")).value =
      none ∧
    parseJSON (bytesOf
        "\x7b\"coin\":\"BTC\",\"address\":\"1A1z...\",\"tag\":\"\",\"url\":\"\",\"Coin\":\"ETH\"\x7d") =
      some (JSON.obj [(bytesOf "coin", JSON.str (bytesOf "BTC")),
        (bytesOf "address", JSON.str (bytesOf "1A1z...")), (bytesOf "tag", JSON.str []),
        (bytesOf "url", JSON.str []), (bytesOf "Coin", JSON.str (bytesOf "ETH"))]) ∧
    ((NewGetDepositsAddressService.Coin "BTC").Do (clientAnswering
      "\x7b\"coin\":\"BTC\",\"address\":\"1A1z...\",\"tag\":\"\",\"url\":\"\",\"Coin\":\"ETH\"\x7d")).value =
      some ⟨bytesOf "ETH", bytesOf "1A1z...", [], []⟩ ∧
    bytesOf "ETH" ≠ bytesOf "BTC" := by
  refine ⟨by rfl, by decide, by decide, by rfl, by decide, by decide⟩

/-- C6, amended: for every body that is a JSON object in which each of `coin`,
`address`, `tag` and `url` is addressed by exactly one member (keys are matched
exactly or case-insensitively) and that member is a string (members with other
keys are ignored), when `callAPI` returns the body without error,
`GetDepositsAddressService.Do` returns a nil error and a response whose `Coin`,
`Address`, `Tag` and `URL` are exactly those four strings, empty ones
included. -/
theorem C6_address_decoded (s : GetDepositsAddressService) (c : Client) (data : List Nat)
    (ms : List (List Nat × JSON)) (kc ka kt ku coin address tag url : List Nat)
    (hc : (c.callAPI s.buildRequest).1 = Except.ok data)
    (hp : parseJSON data = some (JSON.obj ms))
    (hcoin : membersFor AddressField.all AddressField.jsonName AddressField.Coin ms =
      [(kc, JSON.str coin)])
    (haddress : membersFor AddressField.all AddressField.jsonName AddressField.Address ms =
      [(ka, JSON.str address)])
    (htag : membersFor AddressField.all AddressField.jsonName AddressField.Tag ms =
      [(kt, JSON.str tag)])
    (hurl : membersFor AddressField.all AddressField.jsonName AddressField.URL ms =
      [(ku, JSON.str url)]) :
    (s.Do c).err = none ∧ (s.Do c).value = some ⟨coin, address, tag, url⟩ := by
  have hd := address_Do_ok s c data hc
  rw [unmarshalStruct_obj _ _ _ _ _ ms hp] at hd
  have hstr : ∀ m ∈ ms, ∀ f, lookupField AddressField.all AddressField.jsonName m.1 = some f →
      ∃ x, m.2 = JSON.str x := by
    intro m hm f hf
    have hmem := mem_membersFor AddressField.all AddressField.jsonName f ms m hm hf
    cases f with
    | Coin => rw [hcoin] at hmem; simp at hmem; exact ⟨coin, by rw [hmem]⟩
    | Address => rw [haddress] at hmem; simp at hmem; exact ⟨address, by rw [hmem]⟩
    | Tag => rw [htag] at hmem; simp at hmem; exact ⟨tag, by rw [hmem]⟩
    | URL => rw [hurl] at hmem; simp at hmem; exact ⟨url, by rw [hmem]⟩
  have herr : (decodeMembers AddressField.all AddressField.jsonName
      GetDepositAddressResponse.store ms ⟨[], [], [], []⟩ none).2 = none := by
    apply decodeMembers_no_err
    intro m hm f hf r
    obtain ⟨x, hx⟩ := hstr m hm f hf
    rw [hx]
    cases f <;> rfl
  have h1 := decodeMembers_get_unique AddressField.all AddressField.jsonName
    GetDepositAddressResponse.store (fun r => r.get AddressField.Coin) AddressField.Coin
    (fun r g v hg => address_store_other AddressField.Coin g hg r v) ms kc (JSON.str coin) coin
    (fun r => rfl) hcoin ⟨[], [], [], []⟩ none
  have h2 := decodeMembers_get_unique AddressField.all AddressField.jsonName
    GetDepositAddressResponse.store (fun r => r.get AddressField.Address) AddressField.Address
    (fun r g v hg => address_store_other AddressField.Address g hg r v) ms ka (JSON.str address) address
    (fun r => rfl) haddress ⟨[], [], [], []⟩ none
  have h3 := decodeMembers_get_unique AddressField.all AddressField.jsonName
    GetDepositAddressResponse.store (fun r => r.get AddressField.Tag) AddressField.Tag
    (fun r g v hg => address_store_other AddressField.Tag g hg r v) ms kt (JSON.str tag) tag
    (fun r => rfl) htag ⟨[], [], [], []⟩ none
  have h4 := decodeMembers_get_unique AddressField.all AddressField.jsonName
    GetDepositAddressResponse.store (fun r => r.get AddressField.URL) AddressField.URL
    (fun r g v hg => address_store_other AddressField.URL g hg r v) ms ku (JSON.str url) url
    (fun r => rfl) hurl ⟨[], [], [], []⟩ none
  rw [herr] at hd
  refine ⟨hd.1, ?_⟩
  rw [hd.2]
  generalize (decodeMembers AddressField.all AddressField.jsonName
      GetDepositAddressResponse.store ms ⟨[], [], [], []⟩ none).1 = r at h1 h2 h3 h4
  obtain ⟨r1, r2, r3, r4⟩ := r
  simp only [GetDepositAddressResponse.get] at h1 h2 h3 h4
  simp [h1, h2, h3, h4]

/-- C6 amended, at the body of the spec (`coin` BTC, an address, empty `tag`
and `url`) and at a body whose strings use escapes: `\u00e9`, a surrogate pair
and `\/` are returned as their UTF-8 bytes; so are raw UTF-8 bytes, and a byte
that is not valid UTF-8 is returned as U+FFFD. -/
theorem C6_address_decoded_witness :
    (((NewGetDepositsAddressService.Coin "BTC").Do
        (clientAnswering
          "\x7b\"coin\":\"BTC\",\"address\":\"1A1z...\",\"tag\":\"\",\"url\":\"\"\x7d")).err = none ∧
      ((NewGetDepositsAddressService.Coin "BTC").Do
        (clientAnswering
          "\x7b\"coin\":\"BTC\",\"address\":\"1A1z...\",\"tag\":\"\",\"url\":\"\"\x7d")).value =
        some ⟨bytesOf "BTC", bytesOf "1A1z...", [], []⟩) ∧
    (((NewGetDepositsAddressService.Coin "BTC").Do
        (clientAnswering
          "\x7b\"coin\":\"BTC\",\"address\":\"1A1z\\u00e9\",\"tag\":\"\\ud83d\\ude00\",\"url\":\"a\\/b\"\x7d")).err =
        none ∧
      ((NewGetDepositsAddressService.Coin "BTC").Do
        (clientAnswering
          "\x7b\"coin\":\"BTC\",\"address\":\"1A1z\\u00e9\",\"tag\":\"\\ud83d\\ude00\",\"url\":\"a\\/b\"\x7d")).value =
        some ⟨[0x42, 0x54, 0x43], [0x31, 0x41, 0x31, 0x7A, 0xC3, 0xA9], [0xF0, 0x9F, 0x98, 0x80],
          [0x61, 0x2F, 0x62]⟩) ∧
    (((NewGetDepositsAddressService.Coin "BTC").Do (clientAnsweringBytes rawAddressBody)).err =
        none ∧
      ((NewGetDepositsAddressService.Coin "BTC").Do (clientAnsweringBytes rawAddressBody)).value =
        some ⟨[0xE2, 0x82, 0xAC], [0xEF, 0xBF, 0xBD], [], []⟩) :=
  ⟨C6_address_decoded (NewGetDepositsAddressService.Coin "BTC")
      (clientAnswering "\x7b\"coin\":\"BTC\",\"address\":\"1A1z...\",\"tag\":\"\",\"url\":\"\"\x7d")
      (bytesOf "\x7b\"coin\":\"BTC\",\"address\":\"1A1z...\",\"tag\":\"\",\"url\":\"\"\x7d")
      [(bytesOf "coin", JSON.str (bytesOf "BTC")),
        (bytesOf "address", JSON.str (bytesOf "1A1z...")),
        (bytesOf "tag", JSON.str []), (bytesOf "url", JSON.str [])]
      (bytesOf "coin") (bytesOf "address") (bytesOf "tag") (bytesOf "url")
      (bytesOf "BTC") (bytesOf "1A1z...") [] []
      rfl (by rfl) (by rfl) (by rfl) (by rfl) (by rfl),
    C6_address_decoded (NewGetDepositsAddressService.Coin "BTC")
      (clientAnswering
        "\x7b\"coin\":\"BTC\",\"address\":\"1A1z\\u00e9\",\"tag\":\"\\ud83d\\ude00\",\"url\":\"a\\/b\"\x7d")
      (bytesOf
        "\x7b\"coin\":\"BTC\",\"address\":\"1A1z\\u00e9\",\"tag\":\"\\ud83d\\ude00\",\"url\":\"a\\/b\"\x7d")
      [(bytesOf "coin", JSON.str [0x42, 0x54, 0x43]),
        (bytesOf "address", JSON.str [0x31, 0x41, 0x31, 0x7A, 0xC3, 0xA9]),
        (bytesOf "tag", JSON.str [0xF0, 0x9F, 0x98, 0x80]),
        (bytesOf "url", JSON.str [0x61, 0x2F, 0x62])]
      (bytesOf "coin") (bytesOf "address") (bytesOf "tag") (bytesOf "url")
      [0x42, 0x54, 0x43] [0x31, 0x41, 0x31, 0x7A, 0xC3, 0xA9] [0xF0, 0x9F, 0x98, 0x80]
      [0x61, 0x2F, 0x62]
      rfl (by rfl) (by rfl) (by rfl) (by rfl) (by rfl),
    C6_address_decoded (NewGetDepositsAddressService.Coin "BTC")
      (clientAnsweringBytes rawAddressBody) rawAddressBody
      [(bytesOf "coin", JSON.str [0xE2, 0x82, 0xAC]),
        (bytesOf "address", JSON.str [0xEF, 0xBF, 0xBD]),
        (bytesOf "tag", JSON.str []), (bytesOf "url", JSON.str [])]
      (bytesOf "coin") (bytesOf "address") (bytesOf "tag") (bytesOf "url")
      [0xE2, 0x82, 0xAC] [0xEF, 0xBF, 0xBD] [] []
      rfl (by rfl) (by rfl) (by rfl) (by rfl) (by rfl)⟩

/-! ## Lemmas on the deposit history response -/

/-- A member with an unknown key is skipped. -/
theorem decodeMembers_cons_none {S F : Type} (all : List F) (name : F → List Nat)
    (store : S → F → JSON → S × Option Error) (k : List Nat) (v : JSON)
    (ms : List (List Nat × JSON)) (s : S) (err : Option Error)
    (h : lookupField all name k = none) :
    decodeMembers all name store ((k, v) :: ms) s err = decodeMembers all name store ms s err := by
  rw [decodeMembers]
  simp only [h]

/-- A member with a known key is stored into its field. -/
theorem decodeMembers_cons_some {S F : Type} (all : List F) (name : F → List Nat)
    (store : S → F → JSON → S × Option Error) (k : List Nat) (v : JSON)
    (ms : List (List Nat × JSON)) (s : S) (err : Option Error) (f : F)
    (h : lookupField all name k = some f) :
    decodeMembers all name store ((k, v) :: ms) s err =
      decodeMembers all name store ms (store s f v).1 (saveError err (store s f v).2) := by
  rw [decodeMembers]
  simp only [h]

/-- Decoding a concatenation of member lists is decoding one after the other. -/
theorem decodeMembers_append {S F : Type} (all : List F) (name : F → List Nat)
    (store : S → F → JSON → S × Option Error) (ms1 ms2 : List (List Nat × JSON)) :
    ∀ (s : S) (err : Option Error),
      decodeMembers all name store (ms1 ++ ms2) s err =
        decodeMembers all name store ms2 (decodeMembers all name store ms1 s err).1
          (decodeMembers all name store ms1 s err).2 := by
  induction ms1 with
  | nil => intro s err; rfl
  | cons m ms ih =>
    intro s err
    obtain ⟨k, v⟩ := m
    simp only [List.cons_append]
    cases h : lookupField all name k with
    | none => rw [decodeMembers_cons_none _ _ _ _ _ _ _ _ h, decodeMembers_cons_none _ _ _ _ _ _ _ _ h, ih]
    | some f =>
      rw [decodeMembers_cons_some _ _ _ _ _ _ _ _ f h, decodeMembers_cons_some _ _ _ _ _ _ _ _ f h, ih]

/-- Every error of decoding an object is an error of storing one of its members. -/
theorem decodeMembers_errors {S F : Type} (all : List F) (name : F → List Nat)
    (store : S → F → JSON → S × Option Error) (P : Error → Prop)
    (hstore : ∀ s f v e, (store s f v).2 = some e → P e) (ms : List (List Nat × JSON)) :
    ∀ (s : S) (err : Option Error), (∀ e, err = some e → P e) →
      ∀ e, (decodeMembers all name store ms s err).2 = some e → P e := by
  induction ms with
  | nil => intro s err h e he; exact h e he
  | cons m ms ih =>
    intro s err h e he
    obtain ⟨k, v⟩ := m
    unfold decodeMembers at he
    split at he
    · exact ih s err h e he
    · rename_i f hf
      refine ih _ _ ?_ e he
      intro e2 he2
      cases err with
      | none => exact hstore s f v e2 (by simpa [saveError] using he2)
      | some e0 =>
        simp only [saveError, Option.some.injEq] at he2
        exact h e2 (by rw [he2])

/-- The scalar decoders only produce errors of `json.Unmarshal`. -/
theorem decodeScalar_errors (field : String) (v : JSON) (e : Error) :
    (∀ cur, (decodeBool field cur v).2 = some e → e.isJSONError = true) ∧
    (∀ cur, (decodeString field cur v).2 = some e → e.isJSONError = true) ∧
    (∀ cur, (decodeInt64 field cur v).2 = some e → e.isJSONError = true) ∧
    (∀ cur, (decodeFloat64 field cur v).2 = some e → e.isJSONError = true) := by
  refine ⟨?_, ?_, ?_, ?_⟩
  · intro cur h
    cases v <;> simp [decodeBool] at h <;> subst h <;> rfl
  · intro cur h
    cases v <;> simp [decodeString] at h <;> subst h <;> rfl
  · intro cur h
    cases v with
    | num n =>
      simp only [decodeInt64] at h
      split at h
      · simp at h
      · simp at h; subst h; rfl
    | _ => simp [decodeInt64] at h <;> subst h <;> rfl
  · intro cur h
    cases v with
    | num n =>
      simp only [decodeFloat64] at h
      split at h
      · simp at h
      · simp at h; subst h; rfl
    | _ => simp [decodeFloat64] at h <;> subst h <;> rfl

/-- Storing into a `Deposit` only produces errors of `json.Unmarshal`. -/
theorem deposit_store_errors (d : Deposit) (f : DepositField) (v : JSON) (e : Error)
    (h : (d.store f v).2 = some e) : e.isJSONError = true := by
  cases f
  · exact (decodeScalar_errors _ v e).2.2.1 _ h
  · exact (decodeScalar_errors _ v e).2.2.2 _ h
  · exact (decodeScalar_errors _ v e).2.1 _ h
  · exact (decodeScalar_errors _ v e).2.1 _ h
  · exact (decodeScalar_errors _ v e).2.1 _ h
  · exact (decodeScalar_errors _ v e).2.1 _ h
  · exact (decodeScalar_errors _ v e).2.2.1 _ h

/-- Decoding an entry only produces errors of `json.Unmarshal`. -/
theorem decodeDepositPtr_errors (v : JSON) (e : Error) (h : (decodeDepositPtr v).2 = some e) :
    e.isJSONError = true := by
  cases v with
  | null => simp [decodeDepositPtr] at h
  | obj ms =>
    simp only [decodeDepositPtr] at h
    exact decodeMembers_errors _ _ _ (fun e => e.isJSONError = true) deposit_store_errors ms
      Deposit.zero none (by simp) e h
  | _ => simp [decodeDepositPtr] at h; subst h; rfl

/-- Decoding the list only produces errors of `json.Unmarshal`. -/
theorem decodeDepositList_errors (es : List JSON) (e : Error)
    (h : (decodeDepositList es).2 = some e) : e.isJSONError = true := by
  induction es with
  | nil => simp [decodeDepositList] at h
  | cons x xs ih =>
    simp only [decodeDepositList] at h
    cases hx : (decodeDepositPtr x).2 with
    | none =>
      rw [hx] at h
      exact ih (by simpa [saveError] using h)
    | some e0 =>
      rw [hx] at h
      simp only [saveError, Option.some.injEq] at h
      subst h
      exact decodeDepositPtr_errors x e0 hx

/-- Storing into the response only produces errors of `json.Unmarshal`. -/
theorem history_store_errors (r : DepositHistoryResponse) (f : DepositHistoryField) (v : JSON)
    (e : Error) (h : (r.store f v).2 = some e) : e.isJSONError = true := by
  cases f with
  | Success => exact (decodeScalar_errors _ v e).1 _ h
  | Deposits =>
    cases v with
    | null => simp [DepositHistoryResponse.store] at h
    | arr xs => exact decodeDepositList_errors xs e h
    | _ => simp [DepositHistoryResponse.store] at h; subst h; rfl

/-- Unmarshalling the response only produces errors of `json.Unmarshal`. -/
theorem unmarshalHistory_errors (data : List Nat) (r : DepositHistoryResponse) (e : Error)
    (h : (unmarshalStruct DepositHistoryField.all DepositHistoryField.jsonName
      DepositHistoryResponse.store data r).2 = some e) : e.isJSONError = true := by
  unfold unmarshalStruct at h
  split at h
  · simp at h; subst h; rfl
  · simp at h
  · exact decodeMembers_errors _ _ _ (fun e => e.isJSONError = true) history_store_errors _
      r none (by simp) e h
  · simp at h; subst h; rfl

/-- The decoded `Deposits` and the error do not depend on the `Success` field. -/
theorem history_success_irrelevant (ms : List (List Nat × JSON)) :
    ∀ (r1 r2 : DepositHistoryResponse) (err : Option Error), r1.Deposits = r2.Deposits →
      (decodeMembers DepositHistoryField.all DepositHistoryField.jsonName
          DepositHistoryResponse.store ms r1 err).1.Deposits =
        (decodeMembers DepositHistoryField.all DepositHistoryField.jsonName
          DepositHistoryResponse.store ms r2 err).1.Deposits ∧
      (decodeMembers DepositHistoryField.all DepositHistoryField.jsonName
          DepositHistoryResponse.store ms r1 err).2 =
        (decodeMembers DepositHistoryField.all DepositHistoryField.jsonName
          DepositHistoryResponse.store ms r2 err).2 := by
  induction ms with
  | nil => intro r1 r2 err h; exact ⟨h, rfl⟩
  | cons m ms ih =>
    intro r1 r2 err h
    obtain ⟨k, v⟩ := m
    unfold decodeMembers
    split
    · exact ih r1 r2 err h
    · rename_i f hf
      have hs : (r1.store f v).1.Deposits = (r2.store f v).1.Deposits ∧
          (r1.store f v).2 = (r2.store f v).2 := by
        cases f with
        | Success => cases v <;> exact ⟨h, rfl⟩
        | Deposits => cases v <;> first | exact ⟨h, rfl⟩ | exact ⟨rfl, rfl⟩
      rw [hs.2]
      exact ih _ _ _ hs.1

/-- The decoded list holds one element per entry, in order. -/
theorem decodeDepositList_fst (es : List JSON) :
    (decodeDepositList es).1 = es.map (fun e => (decodeDepositPtr e).1) := by
  induction es with
  | nil => rfl
  | cons x xs ih => simp [decodeDepositList, ih]

/-- One entry that fails makes the whole list fail. -/
theorem decodeDepositList_err_of_mem (es : List JSON) (e : JSON) (he : e ∈ es)
    (hbad : (decodeDepositPtr e).2 ≠ none) : (decodeDepositList es).2 ≠ none := by
  induction es with
  | nil => simp at he
  | cons x xs ih =>
    simp only [decodeDepositList]
    rcases List.mem_cons.mp he with rfl | htail
    · exact saveError_ne_none_left _ hbad
    · exact saveError_ne_none_right _ (ih htail)

/-- A value of the wrong JSON type for a field is rejected. -/
theorem deposit_store_wrongType (d : Deposit) (f : DepositField) (v : JSON)
    (h : wrongJSONType f v = true) : (d.store f v).2 ≠ none := by
  cases f <;> cases v <;> first | (simp [wrongJSONType, jsonKind, DepositField.kind] at h; done) |
    simp [Deposit.store, decodeInt64, decodeFloat64, decodeString]

/-- A malformed entry fails to decode. -/
theorem decodeDepositPtr_err_of_malformed (e : JSON) (h : entryMalformed e = true) :
    (decodeDepositPtr e).2 ≠ none := by
  cases e with
  | null => simp [entryMalformed] at h
  | obj ems =>
    simp only [entryMalformed, List.any_eq_true] at h
    obtain ⟨m, hm, hw⟩ := h
    obtain ⟨k, v⟩ := m
    simp only [decodeDepositPtr]
    cases hf : lookupField DepositField.all DepositField.jsonName k with
    | none => simp [hf] at hw
    | some f =>
      simp only [hf] at hw
      exact decodeMembers_err_of_member _ _ _ ems k v f hm hf
        (fun d => deposit_store_wrongType d f v hw) _ _
  | _ => simp [decodeDepositPtr]

/-- With one `depositList` member, an array, the decoded `Deposits` are its decoded entries. -/
theorem history_deposits_of_unique (ms : List (List Nat × JSON)) (k : List Nat) (es : List JSON)
    (hm : membersFor DepositHistoryField.all DepositHistoryField.jsonName
      DepositHistoryField.Deposits ms = [(k, JSON.arr es)]) (r : DepositHistoryResponse)
    (err : Option Error) :
    (decodeMembers DepositHistoryField.all DepositHistoryField.jsonName
      DepositHistoryResponse.store ms r err).1.Deposits =
        some (es.map (fun e => (decodeDepositPtr e).1)) := by
  rw [← decodeDepositList_fst]
  refine decodeMembers_get_unique DepositHistoryField.all DepositHistoryField.jsonName
    DepositHistoryResponse.store DepositHistoryResponse.Deposits DepositHistoryField.Deposits
    ?_ ms k (JSON.arr es) _ (fun s => rfl) hm r err
  intro s g v hg
  cases g with
  | Success => rfl
  | Deposits => exact absurd rfl hg

/-- With one `depositList` member, an array, and no error, `Do` returns its decoded entries. -/
theorem listDeposits_value_of_unique (s : ListDepositsService) (c : Client) (data : List Nat)
    (ms : List (List Nat × JSON)) (k : List Nat) (es : List JSON)
    (hc : (c.callAPI s.buildRequest).1 = Except.ok data)
    (hp : parseJSON data = some (JSON.obj ms))
    (hm : membersFor DepositHistoryField.all DepositHistoryField.jsonName
      DepositHistoryField.Deposits ms = [(k, JSON.arr es)])
    (herr : (s.Do c).err = none) :
    (s.Do c).value = some (es.map (fun e => (decodeDepositPtr e).1)) := by
  have hd := listDeposits_Do_ok s c data hc
  rw [hd.1] at herr
  rw [hd.2, herr]
  simp only
  rw [unmarshalStruct_obj _ _ _ _ _ ms hp]
  exact history_deposits_of_unique ms k es hm _ _

/-- C4, refuted as stated: for a body whose envelope says `"success": false`,
with or without a `depositList`, `Do` returns a nil error: a nil deposit list
when the list is absent, the decoded (here empty) list when it is present. -/
theorem C4_counterexample :
    (unmarshalStruct DepositHistoryField.all DepositHistoryField.jsonName
      DepositHistoryResponse.store
      (bytesOf "\x7b\"success\":false,\"msg\":\"Invalid API-key.\"\x7d") ⟨true, none⟩).1.Success =
        false ∧
    (NewListDepositsService.Do
      (clientAnswering "\x7b\"success\":false,\"msg\":\"Invalid API-key.\"\x7d")).err = none ∧
    (NewListDepositsService.Do
      (clientAnswering "\x7b\"success\":false,\"msg\":\"Invalid API-key.\"\x7d")).value = none ∧
    (NewListDepositsService.Do
      (clientAnswering "\x7b\"success\":false,\"depositList\":[]\x7d")).err = none ∧
    (NewListDepositsService.Do
      (clientAnswering "\x7b\"success\":false,\"depositList\":[]\x7d")).value = some [] := by
  refine ⟨by decide, by decide, by decide, by decide, by decide⟩

/-- C4, amended: `Do` does not inspect the `success` flag. For a body with a
`success` member it returns exactly what it returns for the same body without
that member, and the only errors it adds to those of `callAPI` are the syntax
and type errors of `json.Unmarshal`, never an `ApiError`. -/
theorem C4_success_flag_not_inspected (s : ListDepositsService) (c c2 : Client)
    (data data2 : List Nat) (ms1 ms2 : List (List Nat × JSON)) (b : Bool)
    (hc : (c.callAPI s.buildRequest).1 = Except.ok data)
    (hc2 : (c2.callAPI s.buildRequest).1 = Except.ok data2)
    (hp : parseJSON data = some (JSON.obj (ms1 ++ (bytesOf "success", JSON.bool b) :: ms2)))
    (hp2 : parseJSON data2 = some (JSON.obj (ms1 ++ ms2))) :
    (s.Do c).err = (s.Do c2).err ∧ (s.Do c).value = (s.Do c2).value ∧
    (∀ e, (s.Do c).err = some e → e.isJSONError = true) := by
  have hd := listDeposits_Do_ok s c data hc
  have hd2 := listDeposits_Do_ok s c2 data2 hc2
  have hjson : ∀ e, (s.Do c).err = some e → e.isJSONError = true := by
    intro e he
    rw [hd.1] at he
    exact unmarshalHistory_errors data _ e he
  rw [unmarshalStruct_obj _ _ _ _ _ _ hp] at hd
  rw [unmarshalStruct_obj _ _ _ _ _ _ hp2] at hd2
  have hkey : lookupField DepositHistoryField.all DepositHistoryField.jsonName
      (bytesOf "success") = some DepositHistoryField.Success := by decide
  rw [decodeMembers_append, decodeMembers_cons_some _ _ _ _ _ _ _ _ _ hkey] at hd
  rw [decodeMembers_append] at hd2
  have hirr := history_success_irrelevant ms2
    ((decodeMembers DepositHistoryField.all DepositHistoryField.jsonName
      DepositHistoryResponse.store ms1 ⟨false, none⟩ none).1.store
        DepositHistoryField.Success (JSON.bool b)).1
    (decodeMembers DepositHistoryField.all DepositHistoryField.jsonName
      DepositHistoryResponse.store ms1 ⟨false, none⟩ none).1
    (decodeMembers DepositHistoryField.all DepositHistoryField.jsonName
      DepositHistoryResponse.store ms1 ⟨false, none⟩ none).2 rfl
  have hsave : saveError (decodeMembers DepositHistoryField.all DepositHistoryField.jsonName
      DepositHistoryResponse.store ms1 ⟨false, none⟩ none).2
      ((decodeMembers DepositHistoryField.all DepositHistoryField.jsonName
      DepositHistoryResponse.store ms1 ⟨false, none⟩ none).1.store
        DepositHistoryField.Success (JSON.bool b)).2 =
      (decodeMembers DepositHistoryField.all DepositHistoryField.jsonName
      DepositHistoryResponse.store ms1 ⟨false, none⟩ none).2 := saveError_none_right _
  rw [hsave] at hd
  refine ⟨?_, ?_, hjson⟩
  · rw [hd.1, hd2.1, hirr.2]
  · rw [hd.2, hd2.2, hirr.2, hirr.1]

/-- C4 amended, at a concrete input: the body with `"success": false` and an
empty deposit list gives what the body without the flag gives. -/
theorem C4_success_flag_not_inspected_witness :
    (NewListDepositsService.Do
      (clientAnswering "\x7b\"success\":false,\"depositList\":[]\x7d")).err =
      (NewListDepositsService.Do (clientAnswering "\x7b\"depositList\":[]\x7d")).err ∧
    (NewListDepositsService.Do
      (clientAnswering "\x7b\"success\":false,\"depositList\":[]\x7d")).value =
      (NewListDepositsService.Do (clientAnswering "\x7b\"depositList\":[]\x7d")).value :=
  ⟨(C4_success_flag_not_inspected NewListDepositsService
      (clientAnswering "\x7b\"success\":false,\"depositList\":[]\x7d")
      (clientAnswering "\x7b\"depositList\":[]\x7d")
      (bytesOf "\x7b\"success\":false,\"depositList\":[]\x7d")
      (bytesOf "\x7b\"depositList\":[]\x7d")
      [] [(bytesOf "depositList", JSON.arr [])] false rfl rfl (by rfl) (by rfl)).1,
    (C4_success_flag_not_inspected NewListDepositsService
      (clientAnswering "\x7b\"success\":false,\"depositList\":[]\x7d")
      (clientAnswering "\x7b\"depositList\":[]\x7d")
      (bytesOf "\x7b\"success\":false,\"depositList\":[]\x7d")
      (bytesOf "\x7b\"depositList\":[]\x7d")
      [] [(bytesOf "depositList", JSON.arr [])] false rfl rfl (by rfl) (by rfl)).2.1⟩

/-- C8, refuted as stated. First body: `depositList` is an array of one entry
and the body decodes without error, yet a later member `DEPOSITLIST` (the same
field, matched case-insensitively) resets the list to nil, and `Do` returns no
deposit. Second body: the entry has an `amount` member of JSON type null where
a number is expected, yet `Do` returns the deposit with a nil error, because
`json.Unmarshal` treats a null value as absent. -/
theorem C8_counterexample :
    parseJSON (bytesOf
        "\x7b\"depositList\":[\x7b\"amount\":1\x7d],\"DEPOSITLIST\":null\x7d") =
      some (JSON.obj [(bytesOf "depositList",
          JSON.arr [JSON.obj [(bytesOf "amount", JSON.num ⟨false, 1, 0, 0, true⟩)]]),
        (bytesOf "DEPOSITLIST", JSON.null)]) ∧
    (NewListDepositsService.Do (clientAnswering
      "\x7b\"depositList\":[\x7b\"amount\":1\x7d],\"DEPOSITLIST\":null\x7d")).err = none ∧
    (NewListDepositsService.Do (clientAnswering
      "\x7b\"depositList\":[\x7b\"amount\":1\x7d],\"DEPOSITLIST\":null\x7d")).value = none ∧
    parseJSON (bytesOf "\x7b\"depositList\":[\x7b\"amount\":null\x7d]\x7d") =
      some (JSON.obj [(bytesOf "depositList",
          JSON.arr [JSON.obj [(bytesOf "amount", JSON.null)]])]) ∧
    (NewListDepositsService.Do (clientAnswering
      "\x7b\"depositList\":[\x7b\"amount\":null\x7d]\x7d")).err = none ∧
    (NewListDepositsService.Do (clientAnswering
      "\x7b\"depositList\":[\x7b\"amount\":null\x7d]\x7d")).value = some [some Deposit.zero] := by
  refine ⟨by rfl, by decide, by decide, by rfl, by decide, by decide⟩

/-- C8, amended: for a body that is a JSON object, returned by `callAPI`
without error. If `depositList` is addressed by exactly one member (keys are
matched exactly or case-insensitively), an array, and the body decodes without
error, `Do` returns one deposit per entry, in the order of the body, the i-th
decoded from the i-th entry. If some entry of a `depositList` array is
malformed (a member whose value is not null and of another JSON type than its
field, or an entry that is neither an object nor `null`), `Do` returns an error
and no deposits at all. -/
theorem C8_depositList_all_or_nothing (s : ListDepositsService) (c : Client) (data : List Nat)
    (ms : List (List Nat × JSON))
    (hc : (c.callAPI s.buildRequest).1 = Except.ok data)
    (hp : parseJSON data = some (JSON.obj ms)) :
    (∀ k es, membersFor DepositHistoryField.all DepositHistoryField.jsonName
        DepositHistoryField.Deposits ms = [(k, JSON.arr es)] → (s.Do c).err = none →
      (s.Do c).value = some (es.map (fun e => (decodeDepositPtr e).1)) ∧
      (s.Do c).value.map List.length = some es.length) ∧
    (∀ k es e, (k, JSON.arr es) ∈ ms →
      lookupField DepositHistoryField.all DepositHistoryField.jsonName k =
        some DepositHistoryField.Deposits →
      e ∈ es → entryMalformed e = true →
      (s.Do c).err ≠ none ∧ (s.Do c).value = none) := by
  constructor
  · intro k es hm herr
    have hv := listDeposits_value_of_unique s c data ms k es hc hp hm herr
    refine ⟨hv, ?_⟩
    rw [hv]
    simp
  · intro k es e hmem hk he hbad
    have hd := listDeposits_Do_ok s c data hc
    rw [unmarshalStruct_obj _ _ _ _ _ ms hp] at hd
    have herr : (decodeMembers DepositHistoryField.all DepositHistoryField.jsonName
        DepositHistoryResponse.store ms ⟨false, none⟩ none).2 ≠ none := by
      refine decodeMembers_err_of_member _ _ _ ms k (JSON.arr es) _ hmem hk ?_ _ _
      intro r
      exact decodeDepositList_err_of_mem es e he (decodeDepositPtr_err_of_malformed e hbad)
    refine ⟨by rw [hd.1]; exact herr, ?_⟩
    rw [hd.2]
    cases hx : (decodeMembers DepositHistoryField.all DepositHistoryField.jsonName
        DepositHistoryResponse.store ms ⟨false, none⟩ none).2 with
    | none => exact absurd hx herr
    | some x => rfl

/-- C8, at concrete bodies: two well-formed entries give two deposits in order;
a list whose second entry has a string `amount` gives an error and no
deposits, not the one-entry list. -/
theorem C8_depositList_all_or_nothing_witness :
    (NewListDepositsService.Do (clientAnswering
      "\x7b\"success\":true,\"depositList\":[\x7b\"insertTime\":1508198532000,\"amount\":2,\"asset\":\"ETH\",\"status\":1\x7d,\x7b\"asset\":\"XMR\"\x7d]\x7d")).value =
      some [some ⟨1508198532000, ⟨false, 4503599627370496, -51⟩, bytesOf "ETH", [], [], [], 1⟩,
        some ⟨0, ⟨false, 0, -1074⟩, bytesOf "XMR", [], [], [], 0⟩] ∧
    (NewListDepositsService.Do (clientAnswering
      "\x7b\"depositList\":[\x7b\"asset\":\"ETH\"\x7d,\x7b\"amount\":\"0.5\"\x7d]\x7d")).err ≠ none ∧
    (NewListDepositsService.Do (clientAnswering
      "\x7b\"depositList\":[\x7b\"asset\":\"ETH\"\x7d,\x7b\"amount\":\"0.5\"\x7d]\x7d")).value = none :=
  ⟨(((C8_depositList_all_or_nothing NewListDepositsService
      (clientAnswering
        "\x7b\"success\":true,\"depositList\":[\x7b\"insertTime\":1508198532000,\"amount\":2,\"asset\":\"ETH\",\"status\":1\x7d,\x7b\"asset\":\"XMR\"\x7d]\x7d")
      (bytesOf
        "\x7b\"success\":true,\"depositList\":[\x7b\"insertTime\":1508198532000,\"amount\":2,\"asset\":\"ETH\",\"status\":1\x7d,\x7b\"asset\":\"XMR\"\x7d]\x7d")
      [(bytesOf "success", JSON.bool true),
        (bytesOf "depositList", JSON.arr
          [JSON.obj [(bytesOf "insertTime", JSON.num ⟨false, 1508198532000, 0, 0, true⟩),
              (bytesOf "amount", JSON.num ⟨false, 2, 0, 0, true⟩),
              (bytesOf "asset", JSON.str (bytesOf "ETH")),
              (bytesOf "status", JSON.num ⟨false, 1, 0, 0, true⟩)],
            JSON.obj [(bytesOf "asset", JSON.str (bytesOf "XMR"))]])]
      rfl (by rfl)).1 (bytesOf "depositList")
        [JSON.obj [(bytesOf "insertTime", JSON.num ⟨false, 1508198532000, 0, 0, true⟩),
            (bytesOf "amount", JSON.num ⟨false, 2, 0, 0, true⟩),
            (bytesOf "asset", JSON.str (bytesOf "ETH")),
            (bytesOf "status", JSON.num ⟨false, 1, 0, 0, true⟩)],
          JSON.obj [(bytesOf "asset", JSON.str (bytesOf "XMR"))]]
        (by rfl) (by decide)).1).trans (by decide),
    ((C8_depositList_all_or_nothing NewListDepositsService
      (clientAnswering
        "\x7b\"depositList\":[\x7b\"asset\":\"ETH\"\x7d,\x7b\"amount\":\"0.5\"\x7d]\x7d")
      (bytesOf "\x7b\"depositList\":[\x7b\"asset\":\"ETH\"\x7d,\x7b\"amount\":\"0.5\"\x7d]\x7d")
      [(bytesOf "depositList", JSON.arr
          [JSON.obj [(bytesOf "asset", JSON.str (bytesOf "ETH"))],
            JSON.obj [(bytesOf "amount", JSON.str (bytesOf "0.5"))]])]
      rfl (by rfl)).2 (bytesOf "depositList")
        [JSON.obj [(bytesOf "asset", JSON.str (bytesOf "ETH"))],
          JSON.obj [(bytesOf "amount", JSON.str (bytesOf "0.5"))]]
        (JSON.obj [(bytesOf "amount", JSON.str (bytesOf "0.5"))])
        (List.mem_cons_self _ _) (by decide)
        (List.mem_cons_of_mem _ (List.mem_cons_self _ _)) (by decide)).1,
    ((C8_depositList_all_or_nothing NewListDepositsService
      (clientAnswering
        "\x7b\"depositList\":[\x7b\"asset\":\"ETH\"\x7d,\x7b\"amount\":\"0.5\"\x7d]\x7d")
      (bytesOf "\x7b\"depositList\":[\x7b\"asset\":\"ETH\"\x7d,\x7b\"amount\":\"0.5\"\x7d]\x7d")
      [(bytesOf "depositList", JSON.arr
          [JSON.obj [(bytesOf "asset", JSON.str (bytesOf "ETH"))],
            JSON.obj [(bytesOf "amount", JSON.str (bytesOf "0.5"))]])]
      rfl (by rfl)).2 (bytesOf "depositList")
        [JSON.obj [(bytesOf "asset", JSON.str (bytesOf "ETH"))],
          JSON.obj [(bytesOf "amount", JSON.str (bytesOf "0.5"))]]
        (JSON.obj [(bytesOf "amount", JSON.str (bytesOf "0.5"))])
        (List.mem_cons_self _ _) (by decide)
        (List.mem_cons_of_mem _ (List.mem_cons_self _ _)) (by decide)).2⟩

/-! ## Lemmas on rounding to binary64 -/

/-- The halving loop computes the floor of the binary logarithm when its budget covers the
argument. -/
theorem log2Aux_spec : ∀ (fuel n : Nat), n ≤ fuel → 1 ≤ n →
    2 ^ log2Aux fuel n ≤ n ∧ n < 2 ^ (log2Aux fuel n + 1) := by
  intro fuel
  induction fuel with
  | zero => intro n h h1; omega
  | succ fuel ih =>
    intro n h h1
    unfold log2Aux
    by_cases h2 : 2 ≤ n
    · rw [if_pos h2]
      have hh := ih (n / 2) (by omega) (by omega)
      rw [pow_succ, pow_succ]
      rw [pow_succ] at hh
      omega
    · rw [if_neg h2]
      have : n = 1 := by omega
      subst this
      simp

/-- Characterisation of `log2`: `2 ^ log2 n ≤ n < 2 ^ (log2 n + 1)`. -/
theorem log2_spec (n : Nat) (h1 : 1 ≤ n) : 2 ^ log2 n ≤ n ∧ n < 2 ^ (log2 n + 1) :=
  log2Aux_spec n n (le_refl n) h1

/-- Numbers below `2 ^ 53` have a binary logarithm of at most 52. -/
theorem log2_le_52 (n : Nat) (h1 : 1 ≤ n) (hlt : n < 2 ^ 53) : log2 n ≤ 52 := by
  have h := (log2_spec n h1).1
  have h2 : 2 ^ log2 n < 2 ^ 53 := lt_of_le_of_lt h hlt
  have := (Nat.pow_lt_pow_iff_right (by norm_num : 1 < 2)).mp h2
  omega

/-- The scaled numerator over the scaled denominator is `num / den / 2 ^ e`. -/
theorem scaled_ratio (num den : Nat) (hden : 0 < den) (e : Int) :
    ((scaledNum num e : ℕ) : ℚ) / ((scaledDen den e : ℕ) : ℚ) =
      (num : ℚ) / (den : ℚ) / (2 : ℚ) ^ e := by
  have hd : (den : ℚ) ≠ 0 := by exact_mod_cast hden.ne'
  unfold scaledNum scaledDen
  by_cases he : e < 0
  · rw [if_pos he, if_pos he]
    have h2 : (2 : ℚ) ^ e = ((2 : ℚ) ^ (-e).toNat)⁻¹ := by
      rw [← zpow_natCast, ← zpow_neg]
      congr 1
      omega
    rw [h2]
    push_cast
    field_simp
  · rw [if_neg he, if_neg he]
    have h2 : (2 : ℚ) ^ e = (2 : ℚ) ^ e.toNat := by
      rw [← zpow_natCast]
      congr 1
      omega
    rw [h2]
    push_cast
    field_simp

/-- The scaled denominator is positive. -/
theorem scaledDen_pos (den : Nat) (hden : 0 < den) (e : Int) : 0 < scaledDen den e := by
  unfold scaledDen
  split
  · exact hden
  · positivity

/-- When `num / den / 2 ^ e` is the integer `m`, rounding at exponent `e` gives
`m` and the floor of the quotient is `m`. -/
theorem roundRatio_exact (num den : Nat) (hden : 0 < den) (e : Int) (m : Nat)
    (hx : (num : ℚ) / (den : ℚ) = (m : ℚ) * (2 : ℚ) ^ e) :
    scaledNum num e / scaledDen den e = m ∧ roundRatio num den e = m := by
  have hD := scaledDen_pos den hden e
  have hr := scaled_ratio num den hden e
  have h2 : (2 : ℚ) ^ e ≠ 0 := zpow_ne_zero _ (by norm_num)
  rw [hx, mul_div_assoc, div_self h2, mul_one] at hr
  have hDq : ((scaledDen den e : ℕ) : ℚ) ≠ 0 := by exact_mod_cast hD.ne'
  have hN : scaledNum num e = m * scaledDen den e := by
    have : ((scaledNum num e : ℕ) : ℚ) = (m : ℚ) * ((scaledDen den e : ℕ) : ℚ) := by
      rw [div_eq_iff hDq] at hr
      exact hr
    exact_mod_cast this
  have hq : scaledNum num e / scaledDen den e = m := by
    rw [hN]; exact Nat.mul_div_cancel _ hD
  have hmod : scaledNum num e % scaledDen den e = 0 := by
    rw [hN]; exact Nat.mul_mod_left _ _
  refine ⟨hq, ?_⟩
  unfold roundRatio
  simp only [hq, hmod]
  rw [if_neg]
  intro h
  rcases h with h | ⟨h, -⟩ <;> omega

/-- The binade of a positive rational, read off the binary logarithms of its
numerator and denominator. -/
theorem ratio_bounds (num den : Nat) (hnum : 1 ≤ num) (hden : 1 ≤ den) :
    (2 : ℚ) ^ ((log2 num : Int) - (log2 den : Int) - 1) < (num : ℚ) / (den : ℚ) ∧
    (num : ℚ) / (den : ℚ) < (2 : ℚ) ^ ((log2 num : Int) - (log2 den : Int) + 1) := by
  obtain ⟨hn1, hn2⟩ := log2_spec num hnum
  obtain ⟨hd1, hd2⟩ := log2_spec den hden
  have hdq : (0 : ℚ) < (den : ℚ) := by exact_mod_cast hden
  have two_ne : (2 : ℚ) ≠ 0 := by norm_num
  have qn1 : (2 : ℚ) ^ (log2 num : Int) ≤ (num : ℚ) := by
    rw [zpow_natCast]; exact_mod_cast hn1
  have qn2 : (num : ℚ) < (2 : ℚ) ^ ((log2 num : Int) + 1) := by
    have : ((log2 num : Int) + 1) = ((log2 num + 1 : ℕ) : Int) := by push_cast; ring
    rw [this, zpow_natCast]; exact_mod_cast hn2
  have qd1 : (2 : ℚ) ^ (log2 den : Int) ≤ (den : ℚ) := by
    rw [zpow_natCast]; exact_mod_cast hd1
  have qd2 : (den : ℚ) < (2 : ℚ) ^ ((log2 den : Int) + 1) := by
    have : ((log2 den : Int) + 1) = ((log2 den + 1 : ℕ) : Int) := by push_cast; ring
    rw [this, zpow_natCast]; exact_mod_cast hd2
  constructor
  · rw [lt_div_iff₀ hdq]
    have hpos : (0 : ℚ) < (2 : ℚ) ^ ((log2 num : Int) - (log2 den : Int) - 1) :=
      zpow_pos (by norm_num) _
    calc (2 : ℚ) ^ ((log2 num : Int) - (log2 den : Int) - 1) * (den : ℚ)
        < (2 : ℚ) ^ ((log2 num : Int) - (log2 den : Int) - 1) *
            (2 : ℚ) ^ ((log2 den : Int) + 1) := mul_lt_mul_of_pos_left qd2 hpos
      _ = (2 : ℚ) ^ (log2 num : Int) := by
          rw [← zpow_add₀ two_ne]; congr 1; ring
      _ ≤ (num : ℚ) := qn1
  · rw [div_lt_iff₀ hdq]
    have hpos : (0 : ℚ) < (2 : ℚ) ^ ((log2 num : Int) - (log2 den : Int) + 1) :=
      zpow_pos (by norm_num) _
    calc (num : ℚ) < (2 : ℚ) ^ ((log2 num : Int) + 1) := qn2
      _ = (2 : ℚ) ^ ((log2 num : Int) - (log2 den : Int) + 1) * (2 : ℚ) ^ (log2 den : Int) := by
          rw [← zpow_add₀ two_ne]; congr 1; ring
      _ ≤ (2 : ℚ) ^ ((log2 num : Int) - (log2 den : Int) + 1) * (den : ℚ) :=
          mul_le_mul_of_nonneg_left qd1 hpos.le

/-- A rational that is exactly a canonical binary64 value rounds to that value:
`num / den = m * 2 ^ e` with `m < 2 ^ 53`, `-1074 ≤ e ≤ 971` and `e = -1074`
for `m < 2 ^ 52`. -/
theorem roundFloat64_exact (neg : Bool) (num den m : Nat) (e : Int) (hnum : 1 ≤ num)
    (hden : 1 ≤ den) (hx : (num : ℚ) / (den : ℚ) = (m : ℚ) * (2 : ℚ) ^ e) (hm : m < 2 ^ 53)
    (hlo : -1074 ≤ e) (hhi : e ≤ 971) (hcanon : m < 2 ^ 52 → e = -1074) :
    roundFloat64 neg num den = some ⟨neg, m, e⟩ := by
  obtain ⟨hb1, hb2⟩ := ratio_bounds num den hnum hden
  have two_ne : (2 : ℚ) ≠ 0 := by norm_num
  have one_lt : (1 : ℚ) < 2 := by norm_num
  have hepos : (0 : ℚ) < (2 : ℚ) ^ e := zpow_pos (by norm_num) _
  have hmq : (m : ℚ) < (2 : ℚ) ^ (53 : Int) := by
    have : (53 : Int) = ((53 : ℕ) : Int) := rfl
    rw [this, zpow_natCast]; exact_mod_cast hm
  -- the exponent the algorithm settles on is `e`
  have hupper : (num : ℚ) / (den : ℚ) < (2 : ℚ) ^ (53 + e) := by
    rw [hx, zpow_add₀ two_ne]
    exact mul_lt_mul_of_pos_right hmq hepos
  have hge : (log2 num : Int) - (log2 den : Int) - 53 ≤ e := by
    have := lt_trans hb1 hupper
    rw [zpow_lt_zpow_iff_right₀ one_lt] at this
    omega
  have hE : max (if 2 ^ 53 ≤ scaledNum num ((log2 num : Int) - (log2 den : Int) - 53) /
        scaledDen den ((log2 num : Int) - (log2 den : Int) - 53)
      then (log2 num : Int) - (log2 den : Int) - 53 + 1
      else (log2 num : Int) - (log2 den : Int) - 53) (-1074) = e := by
    by_cases hnorm : 2 ^ 52 ≤ m
    · have hmq2 : (2 : ℚ) ^ (52 : Int) ≤ (m : ℚ) := by
        have : (52 : Int) = ((52 : ℕ) : Int) := rfl
        rw [this, zpow_natCast]; exact_mod_cast hnorm
      have hlower : (2 : ℚ) ^ (52 + e) ≤ (num : ℚ) / (den : ℚ) := by
        rw [hx, zpow_add₀ two_ne]
        exact mul_le_mul_of_nonneg_right hmq2 hepos.le
      have hle : e ≤ (log2 num : Int) - (log2 den : Int) - 53 + 1 := by
        have := lt_of_le_of_lt hlower hb2
        rw [zpow_lt_zpow_iff_right₀ one_lt] at this
        omega
      rcases (by omega : e = (log2 num : Int) - (log2 den : Int) - 53 ∨
          e = (log2 num : Int) - (log2 den : Int) - 53 + 1) with h0 | h1
      · have hq := (roundRatio_exact num den hden _ m (h0 ▸ hx)).1
        rw [hq, if_neg (by omega)]
        rw [← h0]
        exact max_eq_left hlo
      · have hx2 : (num : ℚ) / (den : ℚ) =
            ((2 * m : ℕ) : ℚ) * (2 : ℚ) ^ ((log2 num : Int) - (log2 den : Int) - 53) := by
          rw [hx, h1, zpow_add₀ two_ne]
          push_cast
          ring
        have hq := (roundRatio_exact num den hden _ (2 * m) hx2).1
        rw [hq, if_pos (by omega)]
        rw [← h1]
        exact max_eq_left hlo
    · have hsub : e = -1074 := hcanon (by omega)
      have hmq3 : (m : ℚ) < (2 : ℚ) ^ (52 : Int) := by
        have : (52 : Int) = ((52 : ℕ) : Int) := rfl
        rw [this, zpow_natCast]; exact_mod_cast (by omega : m < 2 ^ 52)
      have hupper2 : (num : ℚ) / (den : ℚ) < (2 : ℚ) ^ (52 + e) := by
        rw [hx, zpow_add₀ two_ne]
        exact mul_lt_mul_of_pos_right hmq3 hepos
      have hsmall : (log2 num : Int) - (log2 den : Int) - 53 + 1 ≤ -1074 := by
        have := lt_trans hb1 hupper2
        rw [zpow_lt_zpow_iff_right₀ one_lt] at this
        omega
      rw [hsub]
      apply max_eq_right
      split <;> omega
  have hround := (roundRatio_exact num den hden e m hx).2
  unfold roundFloat64
  rw [if_neg (by omega)]
  simp only [hE, hround]
  rw [if_neg (by omega), if_neg (by omega), if_neg (by omega)]

/-- The denominator of a literal is positive. -/
theorem numLit_den_pos (lit : NumLit) : 1 ≤ lit.den := by
  unfold NumLit.den
  split
  · exact Nat.one_le_iff_ne_zero.mpr (by positivity)
  · exact le_refl _

/-- A literal whose value is a binary64 value is decoded to exactly that
value. -/
theorem parseFloat64_exact (lit : NumLit) (h : lit.representable) :
    ∃ f, parseFloat64 lit = some f ∧ f.toRat = lit.toRat := by
  obtain ⟨m, e, hm, hlo, hhi, hcanon, hx⟩ := h
  unfold parseFloat64
  rcases Nat.eq_zero_or_pos lit.num with h0 | hpos
  · refine ⟨⟨lit.neg, 0, -1074⟩, by simp [roundFloat64, h0], ?_⟩
    simp [Float64.toRat, NumLit.toRat, h0]
  · refine ⟨⟨lit.neg, m, e⟩,
      roundFloat64_exact lit.neg lit.num lit.den m e hpos (numLit_den_pos lit) hx hm hlo hhi hcanon,
      ?_⟩
    unfold Float64.toRat NumLit.toRat
    simp only
    rw [hx, mul_assoc]

/-- An integer literal of magnitude at most `2 ^ 53` is a binary64 value. -/
theorem int_representable (lit : NumLit) (hs : lit.scale = 0) (he : lit.exp = 0)
    (hd : lit.digits ≤ 2 ^ 53) : lit.representable := by
  have hnum : lit.num = lit.digits := by
    unfold NumLit.num; rw [hs, he]; simp
  have hden : lit.den = 1 := by
    unfold NumLit.den; rw [hs, he]; simp
  unfold NumLit.representable
  rw [hnum, hden]
  rcases Nat.eq_zero_or_pos lit.digits with h0 | hpos
  · exact ⟨0, -1074, by norm_num, le_refl _, by norm_num, fun _ => rfl, by simp [h0]⟩
  · rcases Nat.lt_or_ge lit.digits (2 ^ 53) with hlt | hge
    · have hl := log2_le_52 _ hpos hlt
      obtain ⟨hlo, hhi⟩ := log2_spec _ hpos
      have hmant : 2 ^ 52 ≤ lit.digits * 2 ^ (52 - log2 lit.digits) := by
        calc 2 ^ 52 = 2 ^ log2 lit.digits * 2 ^ (52 - log2 lit.digits) := by
              rw [← pow_add]; congr 1; omega
          _ ≤ lit.digits * 2 ^ (52 - log2 lit.digits) := Nat.mul_le_mul_right _ hlo
      have hmant2 : lit.digits * 2 ^ (52 - log2 lit.digits) < 2 ^ 53 := by
        calc lit.digits * 2 ^ (52 - log2 lit.digits)
            < 2 ^ (log2 lit.digits + 1) * 2 ^ (52 - log2 lit.digits) :=
              Nat.mul_lt_mul_of_pos_right hhi (by positivity)
          _ = 2 ^ 53 := by rw [← pow_add]; congr 1; omega
      refine ⟨lit.digits * 2 ^ (52 - log2 lit.digits), (log2 lit.digits : Int) - 52, hmant2,
        by omega, by omega, fun h => by omega, ?_⟩
      have h2 : ((2 : ℚ) ^ (52 - log2 lit.digits)) * (2 : ℚ) ^ ((log2 lit.digits : Int) - 52) = 1 := by
        rw [← zpow_natCast, ← zpow_add₀ (by norm_num : (2 : ℚ) ≠ 0)]
        have : ((52 - log2 lit.digits : ℕ) : Int) + ((log2 lit.digits : Int) - 52) = 0 := by omega
        rw [this, zpow_zero]
      push_cast
      rw [mul_assoc, h2]
      simp
    · have heq : lit.digits = 2 ^ 53 := le_antisymm hd hge
      refine ⟨2 ^ 52, 1, by norm_num, by norm_num, by norm_num, fun h => by omega, ?_⟩
      rw [heq]
      norm_num

/-- An entry with one `amount` member, a number that `ParseFloat` accepts, gets that float as
its `Amount`. -/
theorem deposit_amount_of_unique (ems : List (List Nat × JSON)) (ka : List Nat) (lit : NumLit)
    (f : Float64) (hf : parseFloat64 lit = some f)
    (hm : membersFor DepositField.all DepositField.jsonName DepositField.Amount ems =
      [(ka, JSON.num lit)]) :
    ∃ d, (decodeDepositPtr (JSON.obj ems)).1 = some d ∧ d.Amount = f := by
  refine ⟨_, rfl, ?_⟩
  refine decodeMembers_get_unique DepositField.all DepositField.jsonName Deposit.store
    Deposit.Amount DepositField.Amount ?_ ems ka (JSON.num lit) f ?_ hm Deposit.zero none
  · intro d g v hg
    cases g <;> first | rfl | exact absurd rfl hg
  · intro d
    simp [Deposit.store, decodeFloat64, hf]

/-- C9, refuted as stated: the amounts `0.1` and `0.10000000000000001` are
distinct decimals, yet `Do` returns the same `Amount` for both, and that
`Amount` is not the decimal `0.1` but the nearest binary64 value. -/
theorem C9_counterexample :
    parseJSON (bytesOf "0.1") = some (JSON.num ⟨false, 1, 1, 0, false⟩) ∧
    parseJSON (bytesOf "0.10000000000000001") =
      some (JSON.num ⟨false, 10000000000000001, 17, 0, false⟩) ∧
    NumLit.toRat ⟨false, 1, 1, 0, false⟩ ≠ NumLit.toRat ⟨false, 10000000000000001, 17, 0, false⟩ ∧
    (NewListDepositsService.Do
      (clientAnswering "\x7b\"depositList\":[\x7b\"amount\":0.1\x7d]\x7d")).value =
      some [some ⟨0, ⟨false, 7205759403792794, -56⟩, [], [], [], [], 0⟩] ∧
    (NewListDepositsService.Do
      (clientAnswering "\x7b\"depositList\":[\x7b\"amount\":0.10000000000000001\x7d]\x7d")).value =
      some [some ⟨0, ⟨false, 7205759403792794, -56⟩, [], [], [], [], 0⟩] ∧
    Float64.toRat ⟨false, 7205759403792794, -56⟩ ≠ NumLit.toRat ⟨false, 1, 1, 0, false⟩ := by
  refine ⟨by rfl, by rfl, ?_, by decide, by decide, ?_⟩
  · have h17 : Int.toNat 17 = 17 := rfl
    norm_num [NumLit.toRat, NumLit.num, NumLit.den, h17]
  · norm_num [Float64.toRat, NumLit.toRat, NumLit.num, NumLit.den]

/-- C9, amended: `Amount` is a binary64 float. For a body that decodes without
error, every deposit `Do` returns is decoded from its entry; an entry whose one
`amount` member is a number whose value is exactly a binary64 value gets an
`Amount` that denotes exactly that value, and two such numbers of different
value never decode to the same `Amount`. Every integer of magnitude at most
`2 ^ 53` is such a number. -/
theorem C9_amount_binary64 (s : ListDepositsService) (c : Client) (data : List Nat)
    (ms : List (List Nat × JSON)) (k : List Nat) (es : List JSON)
    (hc : (c.callAPI s.buildRequest).1 = Except.ok data)
    (hp : parseJSON data = some (JSON.obj ms))
    (hm : membersFor DepositHistoryField.all DepositHistoryField.jsonName
      DepositHistoryField.Deposits ms = [(k, JSON.arr es)])
    (herr : (s.Do c).err = none) :
    (s.Do c).value = some (es.map (fun e => (decodeDepositPtr e).1)) ∧
    (∀ ems ka lit, JSON.obj ems ∈ es →
      membersFor DepositField.all DepositField.jsonName DepositField.Amount ems =
        [(ka, JSON.num lit)] →
      lit.representable →
      ∃ d, (decodeDepositPtr (JSON.obj ems)).1 = some d ∧ parseFloat64 lit = some d.Amount ∧
        d.Amount.toRat = lit.toRat) ∧
    (∀ lit1 lit2 : NumLit, lit1.representable → lit2.representable →
      lit1.toRat ≠ lit2.toRat → parseFloat64 lit1 ≠ parseFloat64 lit2) ∧
    (∀ lit : NumLit, lit.scale = 0 → lit.exp = 0 → lit.digits ≤ 2 ^ 53 → lit.representable) := by
  refine ⟨listDeposits_value_of_unique s c data ms k es hc hp hm herr, ?_, ?_, int_representable⟩
  · intro ems ka lit _ hamount hrep
    obtain ⟨f, hf, hrat⟩ := parseFloat64_exact lit hrep
    obtain ⟨d, hdec, hda⟩ := deposit_amount_of_unique ems ka lit f hf hamount
    exact ⟨d, hdec, by rw [hda]; exact hf, by rw [hda]; exact hrat⟩
  · intro lit1 lit2 hr1 hr2 hne heq
    obtain ⟨f1, hf1, hq1⟩ := parseFloat64_exact lit1 hr1
    obtain ⟨f2, hf2, hq2⟩ := parseFloat64_exact lit2 hr2
    rw [hf1, hf2, Option.some.injEq] at heq
    apply hne
    rw [← hq1, ← hq2, heq]

/-- C9 amended, at a concrete body: the amount `0.5` is decoded exactly, and
the amounts `9007199254740992` (`2 ^ 53`) and `3` decode to different
`Amount`s. -/
theorem C9_amount_binary64_witness :
    (∃ d, (decodeDepositPtr
        (JSON.obj [(bytesOf "amount", JSON.num ⟨false, 5, 1, 0, false⟩)])).1 = some d ∧
      parseFloat64 ⟨false, 5, 1, 0, false⟩ = some d.Amount ∧
      d.Amount.toRat = NumLit.toRat ⟨false, 5, 1, 0, false⟩) ∧
    parseFloat64 ⟨false, 9007199254740992, 0, 0, true⟩ ≠ parseFloat64 ⟨false, 3, 0, 0, true⟩ :=
  ⟨(C9_amount_binary64 NewListDepositsService
      (clientAnswering "\x7b\"depositList\":[\x7b\"amount\":0.5\x7d,\x7b\"amount\":3\x7d]\x7d")
      (bytesOf "\x7b\"depositList\":[\x7b\"amount\":0.5\x7d,\x7b\"amount\":3\x7d]\x7d")
      [(bytesOf "depositList", JSON.arr
        [JSON.obj [(bytesOf "amount", JSON.num ⟨false, 5, 1, 0, false⟩)],
          JSON.obj [(bytesOf "amount", JSON.num ⟨false, 3, 0, 0, true⟩)]])]
      (bytesOf "depositList")
      [JSON.obj [(bytesOf "amount", JSON.num ⟨false, 5, 1, 0, false⟩)],
        JSON.obj [(bytesOf "amount", JSON.num ⟨false, 3, 0, 0, true⟩)]]
      rfl (by rfl) (by rfl) (by decide)).2.1
        [(bytesOf "amount", JSON.num ⟨false, 5, 1, 0, false⟩)] (bytesOf "amount")
        ⟨false, 5, 1, 0, false⟩ (List.mem_cons_self _ _) (by rfl)
        ⟨2 ^ 52, -53, by norm_num, by norm_num, by norm_num, fun h => absurd h (by norm_num),
          by norm_num [NumLit.num, NumLit.den]⟩,
    (C9_amount_binary64 NewListDepositsService
      (clientAnswering "\x7b\"depositList\":[\x7b\"amount\":0.5\x7d,\x7b\"amount\":3\x7d]\x7d")
      (bytesOf "\x7b\"depositList\":[\x7b\"amount\":0.5\x7d,\x7b\"amount\":3\x7d]\x7d")
      [(bytesOf "depositList", JSON.arr
        [JSON.obj [(bytesOf "amount", JSON.num ⟨false, 5, 1, 0, false⟩)],
          JSON.obj [(bytesOf "amount", JSON.num ⟨false, 3, 0, 0, true⟩)]])]
      (bytesOf "depositList")
      [JSON.obj [(bytesOf "amount", JSON.num ⟨false, 5, 1, 0, false⟩)],
        JSON.obj [(bytesOf "amount", JSON.num ⟨false, 3, 0, 0, true⟩)]]
      rfl (by rfl) (by rfl) (by decide)).2.2.1
        ⟨false, 9007199254740992, 0, 0, true⟩ ⟨false, 3, 0, 0, true⟩
        (int_representable ⟨false, 9007199254740992, 0, 0, true⟩ rfl rfl (by decide))
        (int_representable ⟨false, 3, 0, 0, true⟩ rfl rfl (by decide))
        (by norm_num [NumLit.toRat, NumLit.num, NumLit.den])⟩


end Binance
